import Mathlib

/-!
Verification of the equation-discretization and constraint-generation pipeline of the
PYTHON_OPTIMIZATION_ADAPTER repository.

The development shallowly embeds the relevant Python modules
(`pyomo_optimizer_user_interface/discretization.py`, `constraint_rules.py`,
`build_global_model.py`, `build_sequential_model.py`, `constraint_analyzer.py`,
`optimization_complex.py`) as executable Lean definitions.  Python strings are
modelled as lists of characters; sympy expressions as a small expression tree
(`Expr`); pyomo model expressions as `PExpr`; rational or real number semantics
replace Python floats (exact arithmetic, noted per theorem where relevant).
-/

namespace PyAdapter

/-! ## Python string machinery

Python `str` values are modelled as `List Char`.  The helpers below mirror the
exact string operations used by the source: substring test (`in`), `str.strip()`,
`str.replace("**2", "")`, `int(...)` parsing, `str.upper()` / `str.lower()`, and
the two regular expressions of `optimization_complex.py`. -/

abbrev Str := List Char

/-- Whitespace test used by `str.strip()`. -/
def isSpaceChar (c : Char) : Bool := c = ' ' || c = '\t' || c = '\n' || c = '\r'

/-- Python `s.strip()`: drop whitespace from both ends. -/
def trimL (l : Str) : Str := ((l.dropWhile isSpaceChar).reverse.dropWhile isSpaceChar).reverse

/-- Regex `\w` class: letters, digits, underscore. -/
def isWordChar (c : Char) : Bool := c.isAlphanum || c = '_'

/-- Regex `[a-zA-Z_]` class (identifier start). -/
def isIdentStart (c : Char) : Bool := c.isAlpha || c = '_'

/-- A plain Python identifier (as matched by `[a-zA-Z_]\w*`, the whole string). -/
def isIdentStr (l : Str) : Bool :=
  match l with
  | [] => false
  | c :: cs => isIdentStart c && cs.all isWordChar

/-- Python `pat in s` substring test. -/
def strContains (pat : Str) : Str → Bool
  | [] => pat.isEmpty
  | c :: rest => pat.isPrefixOf (c :: rest) || strContains pat rest

/-- One attempted match of the regex `sum\(([^)]+)\)` at the start of the
string. -/
def sumMatchAt : Str → Option Str
  | 's' :: 'u' :: 'm' :: '(' :: rest =>
      let inner := rest.takeWhile (fun c => c ≠ ')')
      if inner.isEmpty then none
      else if (rest.drop inner.length).head? = some ')' then some inner
      else none
  | _ => none

/-- Leftmost match of the regex `sum\(([^)]+)\)` from `_parse_sum`
(`optimization_complex.py` line 33), returning the captured group. -/
def findSumInner : Str → Option Str
  | [] => none
  | c :: rest =>
      match sumMatchAt (c :: rest) with
      | some inner => some inner
      | none => findSumInner rest

/-- Leftmost match of the regex `([a-zA-Z_]\w*)\[([^\]]+)\]` from `_parse_point`
(`optimization_complex.py` line 54), returning both captured groups. -/
def findPointMatch : Str → Option (Str × Str)
  | c :: rest =>
      if isIdentStart c then
        match rest.drop (rest.takeWhile isWordChar).length with
        | '[' :: r2 =>
            let inner := r2.takeWhile (fun ch => ch ≠ ']')
            if inner.isEmpty then findPointMatch rest
            else if (r2.drop inner.length).head? = some ']' then
              some (c :: rest.takeWhile isWordChar, inner)
            else findPointMatch rest
        | _ => findPointMatch rest
      else findPointMatch rest
  | [] => none

/-- Python `s.replace("**2", "")`: remove every (non-overlapping, left-to-right)
occurrence of `**2`. -/
def stripPow2 : Str → Str
  | [] => []
  | [c] => [c]
  | [c, d] => [c, d]
  | c :: d :: e :: rest =>
      if c = '*' ∧ d = '*' ∧ e = '2' then stripPow2 rest
      else c :: stripPow2 (d :: e :: rest)

/-- Decimal digits to a natural number. -/
def digitsToNat (l : Str) : ℕ := l.foldl (fun a c => a * 10 + (c.toNat - '0'.toNat)) 0

/-- Python `int(s)` on a decimal literal: optional sign, at least one digit,
surrounding whitespace allowed; `none` models the raised `ValueError`. -/
def parsePyInt (l0 : Str) : Option ℤ :=
  match trimL l0 with
  | [] => none
  | c :: ds =>
      if c = '-' then
        if !ds.isEmpty && ds.all Char.isDigit then some (-(digitsToNat ds : ℤ)) else none
      else if c = '+' then
        if !ds.isEmpty && ds.all Char.isDigit then some ((digitsToNat ds : ℤ)) else none
      else if (c :: ds).all Char.isDigit then some ((digitsToNat (c :: ds) : ℤ))
      else none

/-- Python `s.upper()`. -/
def toUpperStr (l : Str) : Str := l.map Char.toUpper

/-- Python `s.lower()`. -/
def toLowerStr (l : Str) : Str := l.map Char.toLower

/-- The reserved time-symbol name `t`. -/
def tStr : Str := ['t']

/-- Suffix `_ip1` ("value at step i+1"). -/
def ip1Suffix : Str := ['_', 'i', 'p', '1']

/-- Suffix `_i` ("value at step i"). -/
def iSuffix : Str := ['_', 'i']

/-- The literal symbol name `x_ip1` hard-coded in the lookup-replacement line of
`discretization.py` (line 60: `sp.Function(key)(sp.Symbol("x_ip1"))`). -/
def xip1Str : Str := ['x', '_', 'i', 'p', '1']

/-- The reserved symbol name `dt`. -/
def dtStr : Str := ['d', 't']

/-! ## Sympy expressions

`Expr α` embeds the fragment of sympy expressions the pipeline manipulates:
numeric constants (of a field `α`), plain symbols, `Derivative(f(t), t)` nodes
(recorded by the function name `f`; every derivative built by `equations.py` has
this shape), undefined-function calls `f(arg)`, and the arithmetic operations.
`Pat` is the exact-subtree pattern language: every pattern the source passes to
`xreplace` / `subs` / `replace` is a plain symbol, a derivative node, or a
function call whose argument is a plain symbol. -/

inductive Expr (α : Type) where
  | const (a : α)
  | sym (s : Str)
  | deriv (f : Str)
  | app (f : Str) (arg : Expr α)
  | add (a b : Expr α)
  | sub (a b : Expr α)
  | mul (a b : Expr α)
  | div (a b : Expr α)
  deriving DecidableEq

inductive Pat where
  | sym (s : Str)
  | deriv (f : Str)
  | appSym (f : Str) (argSym : Str)
  deriving DecidableEq

/-- Does the exact-subtree pattern `p` match the node `e`? -/
def patMatches {α : Type} (p : Pat) (e : Expr α) : Bool :=
  match p, e with
  | .sym s, .sym s2 => s = s2
  | .deriv f, .deriv g => f = g
  | .appSym f s, .app g (.sym s2) => f = g && s = s2
  | _, _ => false

/-- Lookup of the first pattern of `σ` matching the node `e`. -/
def findPat {α : Type} (σ : List (Pat × Expr α)) (e : Expr α) : Option (Expr α) :=
  (σ.find? (fun pv => patMatches pv.1 e)).map (fun pv => pv.2)

/-- Sympy `expr.xreplace(dict)` (also `subs`/`replace` for the exact patterns used
here): top-down simultaneous replacement of exact subtrees; a replaced subtree is
not descended into. -/
def xreplace {α : Type} (σ : List (Pat × Expr α)) : Expr α → Expr α
  | .const a =>
      match findPat σ (Expr.const a) with
      | some v => v
      | none => .const a
  | .sym s =>
      match findPat σ (Expr.sym s) with
      | some v => v
      | none => .sym s
  | .deriv f =>
      match findPat σ (Expr.deriv f) with
      | some v => v
      | none => .deriv f
  | .app f a =>
      match findPat σ (Expr.app f a) with
      | some v => v
      | none => .app f (xreplace σ a)
  | .add a b =>
      match findPat σ (Expr.add a b) with
      | some v => v
      | none => .add (xreplace σ a) (xreplace σ b)
  | .sub a b =>
      match findPat σ (Expr.sub a b) with
      | some v => v
      | none => .sub (xreplace σ a) (xreplace σ b)
  | .mul a b =>
      match findPat σ (Expr.mul a b) with
      | some v => v
      | none => .mul (xreplace σ a) (xreplace σ b)
  | .div a b =>
      match findPat σ (Expr.div a b) with
      | some v => v
      | none => .div (xreplace σ a) (xreplace σ b)

/-- Sympy `expr.free_symbols` (order-preserving, deduplicated): the set of
`Symbol` atoms of the expression.  Note that for an undefined function call
`f(arg)` only the argument's symbols are free symbols (the function head is not
a `Symbol`), and `Derivative(f(t), t)` contributes the time symbol `t`. -/
def freeSymsRaw {α : Type} : Expr α → List Str
  | .const _ => []
  | .sym s => [s]
  | .deriv _ => [tStr]
  | .app _ a => freeSymsRaw a
  | .add a b => freeSymsRaw a ++ freeSymsRaw b
  | .sub a b => freeSymsRaw a ++ freeSymsRaw b
  | .mul a b => freeSymsRaw a ++ freeSymsRaw b
  | .div a b => freeSymsRaw a ++ freeSymsRaw b

/-- `free_symbols` as a deduplicated list. -/
def freeSyms {α : Type} (e : Expr α) : List Str := (freeSymsRaw e).dedup

/-- Is `Derivative(f(t), t)` a subterm? -/
def hasDerivOf {α : Type} (f : Str) : Expr α → Bool
  | .deriv g => f = g
  | .app _ a => hasDerivOf f a
  | .add a b => hasDerivOf f a || hasDerivOf f b
  | .sub a b => hasDerivOf f a || hasDerivOf f b
  | .mul a b => hasDerivOf f a || hasDerivOf f b
  | .div a b => hasDerivOf f a || hasDerivOf f b
  | _ => false

/-- Is `e` precisely the symbol named `s0`? -/
def isSymOf {α : Type} (s0 : Str) : Expr α → Bool
  | .sym s => s = s0
  | _ => false

/-- Is the function call `f(t)` a subterm? -/
def hasAppT {α : Type} (f : Str) : Expr α → Bool
  | .app g a => (f = g && isSymOf tStr a) || hasAppT f a
  | .add a b => hasAppT f a || hasAppT f b
  | .sub a b => hasAppT f a || hasAppT f b
  | .mul a b => hasAppT f a || hasAppT f b
  | .div a b => hasAppT f a || hasAppT f b
  | _ => false

/-- Subterm occurrence test (used to state structural facts about residuals). -/
def occursIn {α : Type} [DecidableEq α] (p : Expr α) : Expr α → Bool
  | .const a => Expr.const a = p
  | .sym s => Expr.sym s = p
  | .deriv f => Expr.deriv f = p
  | .app f a => Expr.app f a = p || occursIn p a
  | .add a b => Expr.add a b = p || occursIn p a || occursIn p b
  | .sub a b => Expr.sub a b = p || occursIn p a || occursIn p b
  | .mul a b => Expr.mul a b = p || occursIn p a || occursIn p b
  | .div a b => Expr.div a b = p || occursIn p a || occursIn p b

/-- Stands for `sympy.simplify` (the final line of `discretize_symbolic_eq`).
Sympy is an external collaborator (spec §1: general-purpose symbolic algebra is
used, not reimplemented); `simplify` is a value-preserving algebraic rewrite, so
it is modelled as the identity on expression trees.  All theorems below about the
discretized residual are either evaluation facts (invariant under any
value-preserving rewrite) or structural facts about the substitution pipeline. -/
def simplifyE {α : Type} (e : Expr α) : Expr α := e

/-- Evaluation of a sympy expression under a symbol valuation.  `none` for a
residual still containing a derivative or an undefined-function call (such a
residual is not a numeric expression).  Division is total field division. -/
def evalE {α : Type} [Field α] (σ : Str → α) : Expr α → Option α
  | .const a => some a
  | .sym s => some (σ s)
  | .deriv _ => none
  | .app _ _ => none
  | .add a b => do pure ((← evalE σ a) + (← evalE σ b))
  | .sub a b => do pure ((← evalE σ a) - (← evalE σ b))
  | .mul a b => do pure ((← evalE σ a) * (← evalE σ b))
  | .div a b => do pure ((← evalE σ a) / (← evalE σ b))

/-! ## Discretizer

`discretize_symbolic_eq` from `pyomo_optimizer_user_interface/discretization.py`
(lines 14-62).  The module-level `get_lookup_tables()` global is passed
explicitly as `lookup_keys`; the `t` argument only fixes the time symbol used in
the derivative patterns, which `Pat.deriv` already records.  The `print`
diagnostics have no semantic content. -/

/-- One iteration of the per-unknown-function loop (`discretization.py` lines
28-42): replace `Derivative(f(t), t)` by `(f_ip1 - f_i) / dt`, then replace the
remaining calls `f(t)` by the symbol `f_ip1`. -/
def unkStep {α : Type} (dt : α) (r : Expr α) (f : Str) : Expr α :=
  let r1 := xreplace [(Pat.deriv f,
    Expr.div (Expr.sub (.sym (f ++ ip1Suffix)) (.sym (f ++ iSuffix))) (.const dt))] r
  xreplace [(Pat.appSym f tStr, Expr.sym (f ++ ip1Suffix))] r1

/-- `discretize_symbolic_eq(eq, dt, unknown_funcs, t, discrete_parameters,
replacement_dict)` with the lookup-table keys passed explicitly. -/
def discretize_symbolic_eq {α : Type} (eq : Expr α × Expr α) (dt : α)
    (unknown_funcs : List Str) (discrete_parameters : List Str)
    (replacement_dict : List (Pat × Expr α)) (lookup_keys : List Str) : Expr α :=
  let res := Expr.sub eq.1 eq.2
  let res := unknown_funcs.foldl (unkStep dt) res
  let res := discrete_parameters.foldl
    (fun r v => xreplace [(Pat.appSym v tStr, Expr.sym v)] r) res
  let res := xreplace replacement_dict res
  let res := lookup_keys.foldl
    (fun r k => xreplace [(Pat.appSym k xip1Str, Expr.sym (toUpperStr k ++ ip1Suffix))] r) res
  simplifyE res

/-! ## Symbol binder / constraint-rule generator

`constraint_rules.py` (lines 16-77) and the per-step rule of
`build_sequential_model.py` (lines 181-232).  A sympy symbol is bound either to
a plain number or to a per-timestep pyomo decision-variable handle (`MVal`);
`sympy2pyomo_expression` converts a fully bound sympy expression into a pyomo
expression (`PExpr`); a constraint is `lhs == rhs` over pyomo expressions. -/

/-- What a sympy symbol is mapped to in `MySymbolMap`: a plain number or the
pyomo variable `getattr(model, name)[idx]`. -/
inductive MVal (α : Type) where
  | num (a : α)
  | mvar (name : Str) (idx : ℕ)
  deriving DecidableEq

/-- A pyomo model expression over per-timestep decision variables. -/
inductive PExpr (α : Type) where
  | num (a : α)
  | pvar (name : Str) (idx : ℕ)
  | add (a b : PExpr α)
  | sub (a b : PExpr α)
  | mul (a b : PExpr α)
  | div (a b : PExpr α)
  deriving DecidableEq

/-- A pyomo equality constraint `lhs == rhs`. -/
structure PConstraint (α : Type) where
  lhs : PExpr α
  rhs : PExpr α
  deriving DecidableEq

/-- Failure of a constraint rule: the `ValueError` for unmapped symbols (carrying
exactly the data interpolated into the message: the missing symbol names and,
in the sequential builder only, the offending residual expression), or an error
raised inside `sympy2pyomo_expression` (the converter has no case for a leftover
undefined-function or derivative node). -/
inductive RuleError (α : Type) where
  | unmapped (missing : List Str) (exprInfo : Option (Expr α))
  | conversionFailure
  deriving DecidableEq

/-- `sympy2pyomo_expression(expr, my_map)`: convert a sympy expression, mapping
every symbol through the symbol map; `none` models the conversion error raised
on an unmapped symbol or a non-algebraic node. -/
def sympy2pyomo {α : Type} (m : List (Str × MVal α)) : Expr α → Option (PExpr α)
  | .const a => some (.num a)
  | .sym s =>
      match m.lookup s with
      | some (.num a) => some (.num a)
      | some (.mvar n i) => some (.pvar n i)
      | none => none
  | .deriv _ => none
  | .app _ _ => none
  | .add a b => do pure (.add (← sympy2pyomo m a) (← sympy2pyomo m b))
  | .sub a b => do pure (.sub (← sympy2pyomo m a) (← sympy2pyomo m b))
  | .mul a b => do pure (.mul (← sympy2pyomo m a) (← sympy2pyomo m b))
  | .div a b => do pure (.div (← sympy2pyomo m a) (← sympy2pyomo m b))

/-- The symbol map built by the rule of `generate_constraint_rule`
(`constraint_rules.py` lines 33-66) for timestep index `i`, in source order:
unknown-function `_ip1`/`_i` pairs, parameter values, the reserved `dt`, lookup
outputs `KEY_ip1 -> model.key[i+1]`, discrete variables (bare, `_ip1`, `_i`
forms, only when the model has the attribute), and the time value `t`. -/
def buildSymbolMap {α : Type} [Zero α] (unknown_funcs : List Str) (param_mapping : List (Str × α))
    (dt_value : α) (lookup_keys : List Str) (discrete_parameters : Option (List Str))
    (model_vars : List Str) (time_array : Option (List α)) (i : ℕ) :
    List (Str × MVal α) :=
  (unknown_funcs.flatMap (fun f =>
      [(f ++ ip1Suffix, MVal.mvar f (i+1)), (f ++ iSuffix, MVal.mvar f i)]))
  ++ (param_mapping.map (fun kv => (kv.1, MVal.num kv.2)))
  ++ [(dtStr, MVal.num dt_value)]
  ++ (lookup_keys.map (fun k => (toUpperStr k ++ ip1Suffix, MVal.mvar (toLowerStr k) (i+1))))
  ++ (match discrete_parameters with
      | none => []
      | some dps => dps.flatMap (fun n =>
          if n ∈ model_vars then
            [(n, MVal.mvar n (i+1)), (n ++ ip1Suffix, MVal.mvar n (i+1)), (n ++ iSuffix, MVal.mvar n i)]
          else []))
  ++ (match time_array with
      | none => []
      | some ta => [(tStr, MVal.num (ta.getD i 0))])

/-- The symbols of `e` that are not keys of the map `m`
(`discretized_expr.free_symbols - set(my_map.symbol_map.keys())`). -/
def missingSyms {α : Type} (m : List (Str × MVal α)) (e : Expr α) : List Str :=
  (freeSyms e).filter (fun s => (m.lookup s).isNone)

/-- The rule returned by `generate_constraint_rule(discretized_expr,
unknown_funcs, param_mapping, discrete_parameters, time_array)`, applied at
timestep index `i` (`constraint_rules.py` lines 33-75).  On unmapped symbols it
raises `ValueError(f"Unmapped symbols detected: ...")` — the message carries the
missing-symbol set only, hence `exprInfo := none`. -/
def generate_constraint_rule {α : Type} [Zero α] (discretized_expr : Expr α)
    (unknown_funcs : List Str) (param_mapping : List (Str × α)) (dt_value : α)
    (lookup_keys : List Str) (discrete_parameters : Option (List Str))
    (model_vars : List Str) (time_array : Option (List α)) (i : ℕ) :
    Except (RuleError α) (PConstraint α) :=
  let m := buildSymbolMap unknown_funcs param_mapping dt_value lookup_keys
    discrete_parameters model_vars time_array i
  let missing := missingSyms m discretized_expr
  if missing.isEmpty then
    match sympy2pyomo m discretized_expr with
    | some p => .ok ⟨p, .num 0⟩
    | none => .error .conversionFailure
  else .error (.unmapped missing none)

/-- Dictionary access `current_state[fname]` on a current-state association list
(a key built by `currentState` is always present). -/
def stateGet {α : Type} [Zero α] (cur : List (Str × α)) (f : Str) : α :=
  (cur.lookup f).getD 0

/-- The previous-state substitution of the sequential step rule
(`build_sequential_model.py` lines 185-187): replace each symbol `f_i` by the
literal previous value `current_state[fname]`. -/
def substPrevState {α : Type} [Zero α] (unknown_funcs : List Str)
    (cur : List (Str × α)) (e : Expr α) : Expr α :=
  unknown_funcs.foldl
    (fun r f => xreplace [(Pat.sym (f ++ iSuffix), Expr.const (stateGet cur f))] r) e

/-- `current_state = {f: sol_dict[f][n] for f in unknown_funcs}`
(`build_sequential_model.py` line 121). -/
def currentState {α : Type} [Zero α] (unknown_funcs : List Str) (sol : Str → List α)
    (n : ℕ) : List (Str × α) :=
  unknown_funcs.map (fun f => (f, (sol f).getD n 0))

/-- The substitution chain the sequential step rule applies to the discretized
residual (`build_sequential_model.py` lines 183-202, in source order):
substitute the previous state literally, zero the lookup `_i` symbols,
substitute the step-end time value, simplify, substitute parameter values. -/
def stepSubst {α : Type} [Field α] (unknown_funcs lookup_keys : List Str)
    (param_mapping cur : List (Str × α)) (t_np1 : α) (disc : Expr α) : Expr α :=
  param_mapping.foldl (fun r kv => xreplace [(Pat.sym kv.1, Expr.const kv.2)] r)
    (simplifyE (xreplace [(Pat.sym tStr, Expr.const t_np1)]
      (lookup_keys.foldl
        (fun r k => xreplace [(Pat.sym (toUpperStr k ++ iSuffix), Expr.const 0)] r)
        (substPrevState unknown_funcs cur disc))))

/-- The step rule `step_constraint_rule` of the sequential builder
(`build_sequential_model.py` lines 181-230), for one symbolic equation, with
MINLP disabled (the scenario of the claims): discretize, apply the substitution
chain, bind this step's variables (all at single-step index 0), check for
unmapped leftovers (the raised message carries both the missing symbols and the
expression), and convert.  The constraint is `expr == 0`. -/
def step_constraint_rule {α : Type} [Field α] (eq : Expr α × Expr α) (dt t_np1 : α)
    (unknown_funcs : List Str) (lookup_keys : List Str)
    (param_mapping : List (Str × α)) (cur : List (Str × α)) :
    Except (RuleError α) (PConstraint α) :=
  let disc := stepSubst unknown_funcs lookup_keys param_mapping cur t_np1
    (discretize_symbolic_eq eq dt unknown_funcs [] [] lookup_keys)
  let m : List (Str × MVal α) :=
    [(tStr, MVal.num t_np1)]
    ++ (unknown_funcs.map (fun f => (f ++ ip1Suffix, MVal.mvar f 0)))
    ++ (lookup_keys.map (fun k => (toUpperStr k ++ ip1Suffix, MVal.mvar (toLowerStr k) 0)))
    ++ [(dtStr, MVal.num dt)]
  let missing := missingSyms m disc
  if missing.isEmpty then
    match sympy2pyomo m disc with
    | some p => .ok ⟨p, .num 0⟩
    | none => .error .conversionFailure
  else .error (.unmapped missing (some disc))

/-- Evaluation of a pyomo expression under an assignment of values to the
per-timestep decision variables. -/
def evalP {α : Type} [Field α] (σ : Str → ℕ → α) : PExpr α → α
  | .num a => a
  | .pvar n i => σ n i
  | .add a b => evalP σ a + evalP σ b
  | .sub a b => evalP σ a - evalP σ b
  | .mul a b => evalP σ a * evalP σ b
  | .div a b => evalP σ a / evalP σ b

/-- An assignment satisfies the result of a constraint rule: the built equality
constraint holds; a raised error means no admissible model was built. -/
def constrSat {α : Type} [Field α] (σ : Str → ℕ → α) :
    Except (RuleError α) (PConstraint α) → Prop
  | .ok c => evalP σ c.lhs = evalP σ c.rhs
  | .error _ => False

/-! ## Degrees-of-freedom analyzer

`constraint_analyzer.py` (lines 14-134).  The module reads its inputs from the
loaded-parameter globals; they are passed explicitly here.  `load_logic_constraints`
reads `user_data/object_data.json`; its result is passed as `logic_rules`
(`[]` when the file is absent or the block is empty, making the Python value falsy). -/

/-- Python `int(q)`: truncation toward zero. -/
def pyInt (q : ℚ) : ℤ := if 0 ≤ q then ⌊q⌋ else -⌊-q⌋

/-- `count_time_steps` (lines 14-20): `int(final_time / dt_value)`. -/
def count_time_steps (final_time dt_value : ℚ) : ℤ := pyInt (final_time / dt_value)

/-- `count_parameters` (lines 22-46): `(total, state, opt)` counts; `N` there is
the number of grid points `count_time_steps() + 1`. -/
def count_parameters (final_time dt_value : ℚ) (unknown_funcs : List Str)
    (discrete_parameters : List Str) : ℤ × ℤ × ℤ :=
  let n : ℤ := count_time_steps final_time dt_value + 1
  let state_params : ℤ := (unknown_funcs.length : ℤ) * n
  let opt_params : ℤ := discrete_parameters.foldl (fun a _ => a + n) 0
  (state_params + opt_params, state_params, opt_params)

/-- `count_restrictions` (lines 48-76): `(total, init, ode, logic)` counts.  The
logic term is `N + 1` whenever MINLP is enabled and the loaded discrete-logic
data is truthy, independent of how many rules it holds. -/
def count_restrictions (final_time dt_value : ℚ) (init_conditions : List (Str × ℚ))
    (equations : List (Expr ℚ × Expr ℚ)) (minlp_enabled : Bool)
    (logic_rules : List Str) : ℤ × ℤ × ℤ × ℤ :=
  let n : ℤ := count_time_steps final_time dt_value
  let init_constraints : ℤ := (init_conditions.length : ℤ)
  let ode_constraints : ℤ := (equations.length : ℤ) * n
  let logic_constraints : ℤ :=
    if minlp_enabled && !logic_rules.isEmpty then n + 1 else 0
  (init_constraints + ode_constraints + logic_constraints,
    init_constraints, ode_constraints, logic_constraints)

/-- `analyze_constraint_structure` (lines 94-134): degrees of freedom and the
returned classification string. -/
def analyze_constraint_structure (final_time dt_value : ℚ)
    (unknown_funcs discrete_parameters : List Str)
    (init_conditions : List (Str × ℚ)) (equations : List (Expr ℚ × Expr ℚ))
    (minlp_enabled : Bool) (logic_rules : List Str) : ℤ × String :=
  let total_params := (count_parameters final_time dt_value unknown_funcs
    discrete_parameters).1
  let total_constraints := (count_restrictions final_time dt_value init_conditions
    equations minlp_enabled logic_rules).1
  let dof := total_params - total_constraints
  (dof,
    if dof = 0 then "fully_constrained"
    else if dof > 0 then "under_constrained"
    else "over_constrained")

/-! ## Time grid

`np.arange(0, final_time + dt_value, dt_value)` (`build_global_model.py` line 68,
`build_sequential_model.py` line 54), in exact rational arithmetic. -/

/-- `np.arange(start, stop, step)` for positive `step`: the values
`start + k*step` with `k < ⌈(stop - start)/step⌉`. -/
def arangeQ (start stop step : ℚ) : List ℚ :=
  (List.range (⌈(stop - start) / step⌉.toNat)).map (fun k : ℕ => start + (k : ℚ) * step)

/-- The builders' simulation grid `np.arange(0, final_time + dt_value, dt_value)`. -/
def timeGrid (final_time dt_value : ℚ) : List ℚ := arangeQ 0 (final_time + dt_value) dt_value

/-! ## Lookup-table bound propagation

The bound-setting loop both builders run per lookup table
(`build_global_model.py` lines 128-134, `build_sequential_model.py` lines
151-157).  A model is an association list from variable name to its per-timestep
`(lower, upper)` bound pairs (pyomo `Var.lb` / `Var.ub`, `None` when absent). -/

/-- Bound model: variable name to list of `(lb, ub)` per timestep. -/
abbrev BoundModel := List (Str × List (Option ℚ × Option ℚ))

/-- Python `min(list)` (callers guarantee a non-empty list). -/
def pyMin {α : Type} [LinearOrder α] [Zero α] : List α → α
  | [] => 0
  | x :: xs => xs.foldl min x

/-- Python `max(list)` (callers guarantee a non-empty list). -/
def pyMax {α : Type} [LinearOrder α] [Zero α] : List α → α
  | [] => 0
  | x :: xs => xs.foldl max x

/-- The per-timestep loop of the monolithic builder: for every timestep instance
of the independent variable, `setlb(min(pw_pts))` when `lb is None` and
`setub(max(pw_pts))` when `ub is None`; all other variables untouched. -/
def applyLookupBounds (pw_pts : List ℚ) (indep_var_name : Str) (m : BoundModel) :
    BoundModel :=
  m.map (fun entry =>
    if entry.1 = indep_var_name then
      (entry.1, entry.2.map (fun b =>
        (some (b.1.getD (pyMin pw_pts)), some (b.2.getD (pyMax pw_pts)))))
    else entry)

/-- The sequential builder's variant (lines 151-157): the same loop, guarded by
`indep_var_name in [f.func.__name__ for f in unknown_funcs]`. -/
def applyLookupBoundsSeq (pw_pts : List ℚ) (indep_var_name : Str)
    (unknown_funcs : List Str) (m : BoundModel) : BoundModel :=
  if indep_var_name ∈ unknown_funcs then applyLookupBounds pw_pts indep_var_name m
  else m

/-- Read the bound pair of variable `nm` at timestep `j`. -/
def getBounds (m : BoundModel) (nm : Str) (j : ℕ) : Option (Option ℚ × Option ℚ) :=
  (m.lookup nm).bind (fun bs => bs.get? j)

/-! ## Sequential initial state

`build_sequential_model.py` lines 60-68: the solution array of every unknown
function starts as zeros, then index 0 is set to
`init_conditions.get(fname + "0", 0.0)`. -/

/-- `init_conditions.get(fname + "0", 0.0)`. -/
def initValue {α : Type} [Zero α] (init_conditions : List (Str × α)) (fname : Str) : α :=
  (init_conditions.lookup (fname ++ ['0'])).getD 0

/-- The solution arrays after step 2 of `run_build_sequential_model`:
`np.zeros(len(tau))` with index 0 overwritten for each unknown function. -/
def initialSol {α : Type} [Zero α] (unknown_funcs : List Str)
    (init_conditions : List (Str × α)) (grid_len : ℕ) : Str → List α :=
  fun f =>
    if f ∈ unknown_funcs then
      (List.replicate grid_len (0 : α)).set 0 (initValue init_conditions f)
    else []

/-! ## Objective translator

`optimization_complex.py`: `parse_tensor_expression` (lines 13-29), `_parse_sum`
(lines 31-50), `_parse_point` (lines 52-76) and `add_optimization_objective`
(lines 305-364).  A pyomo model is abstracted by the names `hasattr` can see and
the timestep index list `list(model.T)`; the produced objective is a syntactic
expression (`OExpr`) evaluated by `evalO`. -/

/-- The part of a pyomo model the translator inspects. -/
structure PModel where
  vars : List Str
  tIndex : List ℕ

/-- A pyomo objective expression. -/
inductive OExpr where
  | const (q : ℚ)
  | pvar (name : Str) (idx : ℕ)
  | add (a b : OExpr)
  | pow (a : OExpr) (n : ℕ)
  deriving DecidableEq

/-- Objective-expression evaluation under variable values. -/
def evalO (σ : Str → ℕ → ℚ) : OExpr → ℚ
  | .const q => q
  | .pvar n i => σ n i
  | .add a b => evalO σ a + evalO σ b
  | .pow a n => (evalO σ a) ^ n

/-- Python `sum(var[t]**2 for t in model.T)` (builtin `sum` starts from `0`). -/
def sumSquares (name : Str) (tIndex : List ℕ) : OExpr :=
  tIndex.foldl (fun acc t => .add acc (.pow (.pvar name t) 2)) (.const 0)

/-- Python `sum(var[t] for t in model.T)`. -/
def sumLinear (name : Str) (tIndex : List ℕ) : OExpr :=
  tIndex.foldl (fun acc t => .add acc (.pvar name t)) (.const 0)

/-- `_parse_sum(expr_str, model)` (lines 31-50). -/
def parseSumE (M : PModel) (s : Str) : OExpr :=
  match findSumInner s with
  | none => .const 0
  | some g =>
      let inner := trimL g
      if strContains ['*', '*', '2'] inner then
        let var_name := trimL (stripPow2 inner)
        if var_name ∈ M.vars then sumSquares var_name M.tIndex else .const 0
      else
        if inner ∈ M.vars then sumLinear inner M.tIndex else .const 0

/-- Python list indexing `T_list[idx]` with negative indices counting from the
end; `none` models the raised `IndexError`. -/
def pyListGet {α : Type} (l : List α) (k : ℤ) : Option α :=
  if 0 ≤ k then l.get? k.toNat
  else if (-k).toNat ≤ l.length then l.get? (l.length - (-k).toNat)
  else none

/-- `_parse_point(expr_str, model)` (lines 52-76).  The `try` block wraps both
`int(index_str)` and the indexing, so any failure falls back to the last
timestep. -/
def parsePointE (M : PModel) (s : Str) : OExpr :=
  match findPointMatch s with
  | none => .const 0
  | some (var_name, index_str) =>
      if var_name ∈ M.vars then
        let T := M.tIndex
        if index_str = ['-', '1'] then .pvar var_name (T.getLastD 0)
        else if index_str = ['0'] then .pvar var_name (T.headD 0)
        else
          match parsePyInt index_str with
          | none => .pvar var_name (T.getLastD 0)
          | some k =>
              if k < (T.length : ℤ) then
                match pyListGet T k with
                | some t => .pvar var_name t
                | none => .pvar var_name (T.getLastD 0)
              else .pvar var_name (T.getLastD 0)
      else .const 0

/-- `parse_tensor_expression(expr_str, model)` (lines 13-29). -/
def parse_tensor_expression (M : PModel) (s : Str) : OExpr :=
  if strContains ['s', 'u', 'm', '('] s then parseSumE M s
  else if strContains ['['] s then parsePointE M s
  else
    let var_name := trimL s
    if var_name ∈ M.vars then sumSquares var_name M.tIndex else .const 0

/-- Objective sense. -/
inductive Sense where
  | minimize
  | maximize
  deriving DecidableEq

/-- The optimization block consumed by `add_optimization_objective`. -/
structure OptimizationConfig where
  enabled : Bool
  target_expression : Option Str
  objective_type : Str
  tuning_variables : List Str

/-- Configuration errors raised by `add_optimization_objective`. -/
inductive OptError where
  | missingTargetExpression
  deriving DecidableEq

/-- `add_optimization_objective(model, optimization_config)`
(`optimization_complex.py` lines 305-364): disabled configurations get the dummy
objective `0`; an absent/empty target expression raises; otherwise the parsed
tensor expression is attached with the configured sense (missing tuning
variables only produce a printed warning). -/
def add_optimization_objective (M : PModel) (cfg : OptimizationConfig) :
    Except OptError (OExpr × Sense) :=
  if !cfg.enabled then .ok (.const 0, .minimize)
  else
    match cfg.target_expression with
    | none => .error .missingTargetExpression
    | some te =>
        if te.isEmpty then .error .missingTargetExpression
        else
          .ok (parse_tensor_expression M te,
            if cfg.objective_type = ['m', 'i', 'n', 'i', 'm', 'i', 'z', 'e']
            then Sense.minimize else Sense.maximize)

/-! ## The spring-mass scenario (claim C1)

The fixed end-to-end scenario of spec §8: equations `dx/dt = v` and
`m*dv/dt + DAMPING(x)*v + k_eff*x = F` with `x(0)=1, v(0)=0`, parameters
`m=100, F=0` and fixed `k_eff=500`, lookup table `DAMPING` over the independent
variable `x` with sample domain `[-2, 2]`, `dt=0.5`, `final_time=1.0`
(grid `0, 0.5, 1.0`, so `N = 2` steps), MINLP disabled.

The external solver (spec §6) is a black box that returns an assignment
satisfying every constraint of the handed model; the piecewise interpolation
constraint attached by pyomo `Piecewise` (external) is abstracted as a relation
`PW` between the independent variable's value and the lookup-output variable's
value — both builders attach the same `Piecewise` for the same table data, hence
the same relation.  Trajectory equality of the two paths is stated as equality
of the sets of `(x, v)` values at grid indices 1 and 2 admitted by the two
constraint systems.  Everything is stated over an arbitrary linear ordered
field, covering the real semantics of the solved models. -/

/-- Unknown-function names of the scenario (detected from the sparse tensors
`x`, `v` of the problem data, in declaration order). -/
def scUnknowns : List Str := [['x'], ['v']]

/-- Lookup-table keys of the scenario. -/
def scLookups : List Str := [['D', 'A', 'M', 'P', 'I', 'N', 'G']]

/-- Scenario parameter mapping `{m: 100, F: 0, k_eff: 500}` (`k_eff` fixed). -/
def scParams (α : Type) [Field α] : List (Str × α) :=
  [(['m'], 100), (['F'], 0), (['k', '_', 'e', 'f', 'f'], 500)]

/-- Equation `diff(x(t), t) - v(t) = 0` as parsed by `equations.py`. -/
def scEq1 (α : Type) [Field α] : Expr α × Expr α :=
  (.sub (.deriv ['x']) (.app ['v'] (.sym tStr)), .const 0)

/-- Equation `m*diff(v(t), t) + DAMPING(x(t))*v(t) + k_eff*x(t) - F = 0`. -/
def scEq2 (α : Type) [Field α] : Expr α × Expr α :=
  (.sub
    (.add
      (.add
        (.mul (.sym ['m']) (.deriv ['v']))
        (.mul (.app ['D', 'A', 'M', 'P', 'I', 'N', 'G'] (.app ['x'] (.sym tStr)))
          (.app ['v'] (.sym tStr))))
      (.mul (.sym ['k', '_', 'e', 'f', 'f']) (.app ['x'] (.sym tStr))))
    (.sym ['F']),
   .const 0)

/-- The lookup-table sample endpoints: `DAMPING` is tabulated over the position
domain `[-2, 2]` (`user_data_example/system_data.py` line 45); only the extreme
sample points enter the bound-setting step, so the table is represented by its
endpoints. -/
def scPts (α : Type) [Field α] : List α := [-2, 2]

/-- The scenario time grid `0, 0.5, 1.0` (exact in both float and rational
arithmetic for these values). -/
def scTau (α : Type) [Field α] : List α := [0, 1/2, 1]

/-- Post-discretization cleanup of the monolithic builder
(`build_global_model.py` line 76): `disc.xreplace({t(t): Symbol("t")})`.
(The subsequent loop unifying differently-flagged sympy `t` symbols is identity
bookkeeping in this embedding, where a symbol is just its name.) -/
def tUnify {α : Type} (e : Expr α) : Expr α :=
  xreplace [(Pat.appSym tStr tStr, Expr.sym tStr)] e

/-- The monolithic builder's discretized residual of one scenario equation
(`build_global_model.py` lines 72-87, MINLP disabled so no discrete
parameters). -/
def scMonoDisc (α : Type) [Field α] (eq : Expr α × Expr α) : Expr α :=
  tUnify (discretize_symbolic_eq eq (1/2) scUnknowns [] [] scLookups)

/-- The monolithic builder's bound constraint of one scenario equation at
timestep index `i` (`build_global_model.py` lines 155-164). -/
def scMonoRule (α : Type) [Field α] (eq : Expr α × Expr α) (i : ℕ) :
    Except (RuleError α) (PConstraint α) :=
  generate_constraint_rule (scMonoDisc α eq) scUnknowns (scParams α) (1/2)
    scLookups none [] (some (scTau α)) i

/-- Scenario initial conditions (`x0 = 1`, `v0 = 0`): read by the monolithic
builder from the first tensor entries, and by the sequential builder from the
`init_conditions` parameter block. -/
def scInit (α : Type) [Field α] : List (Str × α) := [(['x', '0'], 1), (['v', '0'], 0)]

/-- The assignment of the nine per-timestep decision-variable instances of the
monolithic scenario model (`x[0..2]`, `v[0..2]`, `damping[0..2]`). -/
def scAsn {α : Type} (x0 x1 x2 v0 v1 v2 d0 d1 d2 : α) : Str → ℕ → α :=
  fun nm i =>
    if nm = ['x'] then (if i = 0 then x0 else if i = 1 then x1 else x2)
    else if nm = ['v'] then (if i = 0 then v0 else if i = 1 then v1 else v2)
    else (if i = 0 then d0 else if i = 1 then d1 else d2)

/-- Satisfaction of the monolithic scenario model (`build_global_model.py`):
initial-condition constraints pinning index 0, lookup-domain bounds on every
timestep instance of `x`, one `Piecewise` relation instance per timestep, and
the two discretized equations bound on both adjacent index pairs.  The dummy
objective adds no constraint. -/
def monoScenarioSat {α : Type} [LinearOrderedField α] (PW : α → α → Prop)
    (x0 v0 d0 x1 v1 d1 x2 v2 d2 : α) : Prop :=
  let σ := scAsn x0 x1 x2 v0 v1 v2 d0 d1 d2
  (x0 = 1 ∧ v0 = 0)
  ∧ (pyMin (scPts α) ≤ x0 ∧ x0 ≤ pyMax (scPts α)
      ∧ pyMin (scPts α) ≤ x1 ∧ x1 ≤ pyMax (scPts α)
      ∧ pyMin (scPts α) ≤ x2 ∧ x2 ≤ pyMax (scPts α))
  ∧ (PW x0 d0 ∧ PW x1 d1 ∧ PW x2 d2)
  ∧ (constrSat σ (scMonoRule α (scEq1 α) 0) ∧ constrSat σ (scMonoRule α (scEq1 α) 1)
      ∧ constrSat σ (scMonoRule α (scEq2 α) 0) ∧ constrSat σ (scMonoRule α (scEq2 α) 1))

/-- The sequential builder's step rule for one scenario equation, previous state
`(xp, vp)`, step end time `tNext` (`build_sequential_model.py` lines 181-232;
`dt = tau[n+1] - tau[n] = 1/2` exactly on this grid). -/
def scSeqRule (α : Type) [Field α] (eq : Expr α × Expr α) (xp vp tNext : α) :
    Except (RuleError α) (PConstraint α) :=
  step_constraint_rule eq (1/2) tNext scUnknowns scLookups (scParams α)
    [(['x'], xp), (['v'], vp)]

/-- The single-step assignment of one sequential micro-model (all variables at
its only index 0). -/
def scStepAsn {α : Type} (x' v' d' : α) : Str → ℕ → α :=
  fun nm _ => if nm = ['x'] then x' else if nm = ['v'] then v' else d'

/-- Satisfaction of one sequential step model: lookup-domain bounds on this
step's `x` instance (the guard `indep_var_name in unknown_funcs` holds), the
`Piecewise` relation for this step, and both step constraints. -/
def seqStepSat {α : Type} [LinearOrderedField α] (PW : α → α → Prop)
    (xp vp tNext x' v' d' : α) : Prop :=
  (pyMin (scPts α) ≤ x' ∧ x' ≤ pyMax (scPts α))
  ∧ PW x' d'
  ∧ constrSat (scStepAsn x' v' d') (scSeqRule α (scEq1 α) xp vp tNext)
  ∧ constrSat (scStepAsn x' v' d') (scSeqRule α (scEq2 α) xp vp tNext)

/-- Satisfaction of the whole sequential run (`run_build_sequential_model`):
index-0 values from `init_conditions`, then the two chained step models, each
solved with the previous step's extracted values as fixed previous state. -/
def seqScenarioSat {α : Type} [LinearOrderedField α] (PW : α → α → Prop)
    (x0 v0 x1 v1 d1 x2 v2 d2 : α) : Prop :=
  (x0 = initValue (scInit α) ['x'] ∧ v0 = initValue (scInit α) ['v'])
  ∧ seqStepSat PW x0 v0 (1/2) x1 v1 d1
  ∧ seqStepSat PW x1 v1 1 x2 v2 d2

/-! ## A lookup table over a non-`x` independent variable (claim C9)

The equation `diff(v(t), t) - DAMPING(v(t)) = 0` with single unknown `v` and the
`DAMPING` lookup table declared over the independent variable `v`: after
discretization the lookup call becomes `DAMPING(v_ip1)`, whose argument is not
the literal symbol `x_ip1` targeted by the replacement line. -/

/-- Equation `diff(v(t), t) - DAMPING(v(t)) = 0`. -/
def c9Eq : Expr ℚ × Expr ℚ :=
  (.sub (.deriv ['v']) (.app ['D', 'A', 'M', 'P', 'I', 'N', 'G'] (.app ['v'] (.sym tStr))),
   .const 0)

/-- Its discretized residual (unknowns `[v]`, lookup keys `[DAMPING]`). -/
def c9Disc : Expr ℚ := discretize_symbolic_eq c9Eq (1/2) [['v']] [] [] scLookups

/-- The monolithic constraint rule applied to that residual at timestep 0. -/
def c9Rule : Except (RuleError ℚ) (PConstraint ℚ) :=
  generate_constraint_rule c9Disc [['v']] [] (1/2) scLookups none [] none 0

/-- The symbol map that rule builds at timestep 0. -/
def c9Map : List (Str × MVal ℚ) :=
  buildSymbolMap [['v']] [] (1/2) scLookups none [] none 0

/-! # Theorems -/

/-! ## General lemmas about patterns and replacement -/

theorem patMatches_const_eq_false {α : Type} (p : Pat) (a : α) :
    patMatches p (Expr.const a) = false := by
  cases p <;> rfl

theorem findPat_const {α : Type} (σ : List (Pat × Expr α)) (a : α) :
    findPat σ (Expr.const a) = none := by
  unfold findPat
  rw [List.find?_eq_none.mpr]
  · rfl
  · intro x _
    simp [patMatches_const_eq_false]

theorem xreplace_const {α : Type} (σ : List (Pat × Expr α)) (a : α) :
    xreplace σ (Expr.const a) = Expr.const a := by
  simp [xreplace, findPat_const]

theorem xreplace_single_sym_eq {α : Type} (s : Str) (v : Expr α) :
    xreplace [(Pat.sym s, v)] (Expr.sym s) = v := by
  simp [xreplace, findPat, List.find?, patMatches]

theorem xreplace_single_sym_ne {α : Type} (s s2 : Str) (v : Expr α) (h : s ≠ s2) :
    xreplace [(Pat.sym s, v)] (Expr.sym s2) = Expr.sym s2 := by
  simp [xreplace, findPat, List.find?, patMatches, h]

/-! ## Claim C10: sequential initial state for undeclared initial conditions -/

theorem substPrevState_cons {α : Type} [Zero α] (g : Str) (rest : List Str)
    (cur : List (Str × α)) (e : Expr α) :
    substPrevState (g :: rest) cur e =
      substPrevState rest cur
        (xreplace [(Pat.sym (g ++ iSuffix), Expr.const (stateGet cur g))] e) := rfl

theorem substPrevState_const {α : Type} [Zero α] (l : List Str) (cur : List (Str × α))
    (a : α) : substPrevState l cur (Expr.const a) = Expr.const a := by
  induction l with
  | nil => rfl
  | cons g rest ih => rw [substPrevState_cons, xreplace_const, ih]

theorem substPrevState_symi {α : Type} [Zero α] (l : List Str) (cur : List (Str × α))
    (f : Str) (hf : f ∈ l) :
    substPrevState l cur (Expr.sym (f ++ iSuffix)) = Expr.const (stateGet cur f) := by
  induction l with
  | nil => cases hf
  | cons g rest ih =>
      rw [substPrevState_cons]
      by_cases hg : g = f
      · subst hg
        rw [xreplace_single_sym_eq, substPrevState_const]
      · rcases List.mem_cons.mp hf with h | h
        · exact absurd h.symm hg
        · rw [xreplace_single_sym_ne _ _ _ (fun hEq => hg (List.append_cancel_right hEq)),
            ih h]

theorem currentState_cons {α : Type} [Zero α] (g : Str) (rest : List Str)
    (sol : Str → List α) (n : ℕ) :
    currentState (g :: rest) sol n = (g, (sol g).getD n 0) :: currentState rest sol n := rfl

theorem stateGet_currentState {α : Type} [Zero α] (l : List Str) (sol : Str → List α)
    (n : ℕ) (f : Str) (hf : f ∈ l) :
    stateGet (currentState l sol n) f = (sol f).getD n 0 := by
  induction l with
  | nil => cases hf
  | cons g rest ih =>
      rw [currentState_cons]
      by_cases hg : f = g
      · subst hg
        simp [stateGet, List.lookup]
      · rcases List.mem_cons.mp hf with h | h
        · exact absurd h hg
        · simpa [stateGet, List.lookup, beq_eq_false_iff_ne.mpr hg] using ih h

theorem initialSol_at_zero {α : Type} [Zero α] (l : List Str) (conds : List (Str × α))
    (L : ℕ) (f : Str) (hf : f ∈ l) (hL : 0 < L) :
    (initialSol l conds L f).getD 0 0 = initValue conds f := by
  obtain ⟨m, rfl⟩ : ∃ m, L = m + 1 := ⟨L - 1, by omega⟩
  simp [initialSol, hf, List.replicate_succ]

/-- C10: in sequential (timewise) mode, an unknown function with no declared
initial-condition entry `<name>0` silently gets trajectory value `0.0` at grid
index 0 (`init_conditions.get(fname + "0", 0.0)` with no error path), and that
`0.0` is the fixed previous-state value substituted for the symbol `<name>_i` in
the first step's constraints. -/
theorem c10_sequential_silent_zero_init (unknowns : List Str)
    (conds : List (Str × ℚ)) (f : Str) (L : ℕ) (hf : f ∈ unknowns) (hL : 0 < L)
    (h : conds.lookup (f ++ ['0']) = none) :
    initValue conds f = 0
    ∧ (initialSol unknowns conds L f).getD 0 0 = 0
    ∧ substPrevState unknowns (currentState unknowns (initialSol unknowns conds L) 0)
        (Expr.sym (f ++ iSuffix)) = Expr.const (0 : ℚ) :=
  have h1 : initValue conds f = 0 := by simp [initValue, h]
  have h2 : (initialSol unknowns conds L f).getD 0 0 = 0 := by
    rw [initialSol_at_zero unknowns conds L f hf hL, h1]
  ⟨h1, h2, by
    rw [substPrevState_symi unknowns _ f hf,
      stateGet_currentState unknowns _ 0 f hf, h2]⟩

/-- Witness for `c10_sequential_silent_zero_init` at `unknowns = [x]`,
`conds = []`, `L = 3`. -/
theorem c10_witness :
    initValue ([] : List (Str × ℚ)) ['x'] = 0
    ∧ (initialSol [['x']] ([] : List (Str × ℚ)) 3 ['x']).getD 0 0 = 0
    ∧ substPrevState [['x']]
        (currentState [['x']] (initialSol [['x']] ([] : List (Str × ℚ)) 3) 0)
        (Expr.sym (['x'] ++ iSuffix)) = Expr.const (0 : ℚ) :=
  c10_sequential_silent_zero_init [['x']] [] ['x'] 3 (by decide) (by decide) (by decide)

/-! ## Claim C7: lookup-table bound propagation -/

theorem lookup_applyLookupBounds (pts : List ℚ) (indep : Str) (m : BoundModel)
    (nm : Str) :
    (applyLookupBounds pts indep m).lookup nm =
      if nm = indep then
        (m.lookup nm).map (fun bs => bs.map (fun b =>
          (some (b.1.getD (pyMin pts)), some (b.2.getD (pyMax pts)))))
      else m.lookup nm := by
  induction m with
  | nil => simp [applyLookupBounds]
  | cons e rest ih =>
      obtain ⟨k, bs⟩ := e
      have hcons : applyLookupBounds pts indep ((k, bs) :: rest) =
          (if k = indep then
            (k, bs.map (fun b => (some (b.1.getD (pyMin pts)), some (b.2.getD (pyMax pts)))))
          else (k, bs)) :: applyLookupBounds pts indep rest := rfl
      rw [hcons]
      by_cases hnm : nm = k
      · subst hnm
        by_cases hi : nm = indep
        · rw [if_pos hi, if_pos hi]
          simp [List.lookup]
        · rw [if_neg hi, if_neg hi]
          simp [List.lookup]
      · have hbe : (nm == k) = false := beq_eq_false_iff_ne.mpr hnm
        by_cases hk : k = indep
        · rw [if_pos hk]
          simp only [List.lookup, hbe]
          exact ih
        · rw [if_neg hk]
          simp only [List.lookup, hbe]
          exact ih

/-- C7: attaching a lookup table sets, for every per-timestep instance of the
table's independent decision variable, a missing lower bound to the minimum of
the sample points and a missing upper bound to the maximum, leaves declared
bounds unchanged, and does not modify the bounds of any other variable; the
sequential builder does the same behind its membership guard. -/
theorem c7_lookup_bound_propagation (m : BoundModel) (pts : List ℚ) (indep : Str)
    (unknowns : List Str) (hpts : pts ≠ []) :
    (∀ nm j, getBounds (applyLookupBounds pts indep m) nm j =
        if nm = indep then
          (getBounds m nm j).map (fun b =>
            (some (b.1.getD (pyMin pts)), some (b.2.getD (pyMax pts))))
        else getBounds m nm j)
    ∧ (indep ∈ unknowns →
        ∀ nm j, getBounds (applyLookupBoundsSeq pts indep unknowns m) nm j =
          if nm = indep then
            (getBounds m nm j).map (fun b =>
              (some (b.1.getD (pyMin pts)), some (b.2.getD (pyMax pts))))
          else getBounds m nm j) := by
  have main : ∀ nm j, getBounds (applyLookupBounds pts indep m) nm j =
      if nm = indep then
        (getBounds m nm j).map (fun b =>
          (some (b.1.getD (pyMin pts)), some (b.2.getD (pyMax pts))))
      else getBounds m nm j := by
    intro nm j
    unfold getBounds
    rw [lookup_applyLookupBounds]
    by_cases hnm : nm = indep
    · simp only [if_pos hnm]
      cases m.lookup nm with
      | none => rfl
      | some bs =>
          simp only [Option.map_some', Option.some_bind]
          rw [List.get?_map]
    · simp [if_neg hnm]
  exact ⟨main, fun hmem => by
    intro nm j
    unfold applyLookupBoundsSeq
    rw [if_pos hmem]
    exact main nm j⟩

/-- Witness for `c7_lookup_bound_propagation` on a two-variable model. -/
theorem c7_witness :
    getBounds (applyLookupBounds [-2, 2] ['x']
        [(['x'], [((none : Option ℚ), some 5), (none, none)]), (['v'], [(none, none)])])
        ['x'] 0 =
      if (['x'] : Str) = ['x'] then
        (getBounds [(['x'], [((none : Option ℚ), some 5), (none, none)]),
          (['v'], [(none, none)])] ['x'] 0).map (fun b =>
            (some (b.1.getD (pyMin [-2, 2])), some (b.2.getD (pyMax [-2, 2]))))
      else getBounds [(['x'], [((none : Option ℚ), some 5), (none, none)]),
        (['v'], [(none, none)])] ['x'] 0 :=
  (c7_lookup_bound_propagation _ _ _ [] (by decide)).1 ['x'] 0

/-! ## Claim C4: degrees-of-freedom analyzer -/

theorem foldl_add_const {β : Type} (l : List β) (n acc : ℤ) :
    l.foldl (fun a _ => a + n) acc = acc + l.length * n := by
  induction l generalizing acc with
  | nil => simp
  | cons b rest ih => rw [List.foldl_cons, ih, List.length_cons]; push_cast; ring

theorem count_time_steps_one_half : count_time_steps 1 (1/2) = 2 := by
  unfold count_time_steps pyInt
  norm_num

theorem c4_instance_params : (count_parameters 1 (1/2) [['x'], ['v']] []).1 = 6 := by
  simp only [count_parameters]
  rw [count_time_steps_one_half]
  norm_num

theorem c4_instance_restrictions :
    (count_restrictions 1 (1/2) [(['x', '0'], 1), (['v', '0'], 0)]
      [scEq1 ℚ, scEq2 ℚ] false []).1 = 6 := by
  simp only [count_restrictions]
  rw [count_time_steps_one_half]
  norm_num

theorem c4_instance_analyze :
    analyze_constraint_structure 1 (1/2) [['x'], ['v']] []
      [(['x', '0'], 1), (['v', '0'], 0)] [scEq1 ℚ, scEq2 ℚ] false [] =
      (0, "fully_constrained") := by
  simp only [analyze_constraint_structure]
  rw [c4_instance_params, c4_instance_restrictions]
  norm_num

/-- C4 (amended): the analyzer computes
`total_variables = (U + D) * (N + 1)` and
`total_constraints = I + E * N + (N + 1 when MINLP is enabled and the loaded
discrete-logic data is non-empty, independently of the number of logic rules; 0
otherwise)`, sets `degrees_of_freedom = total_variables - total_constraints`,
and classifies `0` as fully constrained, positive as under-constrained and
negative as over-constrained (the reported deficit/redundancy being the returned
`dof` value); in particular the `N=2, U=2, D=0, E=2, I=2`, no-logic instance
yields 6 variables, 6 constraints, dof 0, fully constrained. -/
theorem c4_dof_analyzer (ft dtv : ℚ) (unknowns dps : List Str)
    (conds : List (Str × ℚ)) (eqs : List (Expr ℚ × Expr ℚ))
    (minlp : Bool) (logicRules : List Str) :
    (count_parameters ft dtv unknowns dps).1 =
      ((unknowns.length : ℤ) + dps.length) * (count_time_steps ft dtv + 1)
    ∧ (count_restrictions ft dtv conds eqs minlp logicRules).1 =
      (conds.length : ℤ) + (eqs.length : ℤ) * count_time_steps ft dtv +
        (if minlp = true ∧ logicRules ≠ [] then count_time_steps ft dtv + 1 else 0)
    ∧ (analyze_constraint_structure ft dtv unknowns dps conds eqs minlp logicRules).1 =
      (count_parameters ft dtv unknowns dps).1 -
        (count_restrictions ft dtv conds eqs minlp logicRules).1
    ∧ (analyze_constraint_structure ft dtv unknowns dps conds eqs minlp logicRules).2 =
      (if (analyze_constraint_structure ft dtv unknowns dps conds eqs minlp logicRules).1 = 0
        then "fully_constrained"
        else if (analyze_constraint_structure ft dtv unknowns dps conds eqs minlp
          logicRules).1 > 0 then "under_constrained" else "over_constrained")
    ∧ (count_parameters 1 (1/2) [['x'], ['v']] []).1 = 6
    ∧ (count_restrictions 1 (1/2) [(['x', '0'], 1), (['v', '0'], 0)]
        [scEq1 ℚ, scEq2 ℚ] false []).1 = 6
    ∧ analyze_constraint_structure 1 (1/2) [['x'], ['v']] []
        [(['x', '0'], 1), (['v', '0'], 0)] [scEq1 ℚ, scEq2 ℚ] false [] =
        (0, "fully_constrained") := by
  refine ⟨?_, ?_, rfl, rfl, c4_instance_params, c4_instance_restrictions,
    c4_instance_analyze⟩
  · show (unknowns.length : ℤ) * (count_time_steps ft dtv + 1) +
      dps.foldl (fun a _ => a + (count_time_steps ft dtv + 1)) 0 = _
    rw [foldl_add_const]
    ring
  · show (conds.length : ℤ) + (eqs.length : ℤ) * count_time_steps ft dtv +
      (if minlp && !logicRules.isEmpty then count_time_steps ft dtv + 1 else 0) = _
    congr 1
    by_cases hm : minlp = true
    · by_cases hl : logicRules = []
      · simp [hm, hl]
      · simp [hm, hl, List.isEmpty_iff]
    · simp [Bool.not_eq_true] at hm
      simp [hm]

/-- Counterexample to C4 as stated: with MINLP enabled and two logic rules
(`L = 2`) at `N = 1`, the analyzer counts `N + 1 = 2` logic constraints, not
`L * (N + 1) = 4`. -/
theorem c4_counterexample :
    (count_restrictions 1 1 [] [] true [['a'], ['b']]).1 = 2
    ∧ ([['a'], ['b']].length : ℤ) * (count_time_steps 1 1 + 1) = 4
    ∧ (2 : ℤ) ≠ 4 := by
  have h1 : count_time_steps 1 1 = 1 := by
    unfold count_time_steps pyInt
    norm_num
  refine ⟨?_, ?_, by norm_num⟩
  · simp only [count_restrictions]
    rw [h1]
    norm_num
  · rw [h1]
    norm_num

/-! ## Claim C8: timestep count and grid size -/

/-- C8 (amended): `count_time_steps` returns the truncation `⌊F / d⌋` (Python
`int(F / d)`), while the builders' grid `np.arange(0, F + d, d)` has (in exact
arithmetic) `⌈F / d⌉ + 1` points; when `d` divides `F` exactly the two agree
and both equal `round(F / d)`, with the grid having `N + 1` points. -/
theorem c8_step_count_and_grid (F d : ℚ) (hF : 0 < F) (hd : 0 < d) :
    count_time_steps F d = ⌊F / d⌋
    ∧ (timeGrid F d).length = (⌈F / d⌉ + 1).toNat
    ∧ (∀ m : ℕ, F = (m : ℚ) * d →
        count_time_steps F d = m ∧ (timeGrid F d).length = m + 1
        ∧ round (F / d) = m) := by
  have hd0 : d ≠ 0 := ne_of_gt hd
  have hdiv : (F + d) / d = F / d + 1 := by
    rw [add_div, div_self hd0]
  have h1 : count_time_steps F d = ⌊F / d⌋ := by
    unfold count_time_steps pyInt
    rw [if_pos (le_of_lt (div_pos hF hd))]
  have h2 : (timeGrid F d).length = (⌈F / d⌉ + 1).toNat := by
    simp only [timeGrid, arangeQ, List.length_map, List.length_range, sub_zero]
    rw [hdiv, Int.ceil_add_one]
  refine ⟨h1, h2, fun m hm => ?_⟩
  have hFd : F / d = (m : ℚ) := by
    rw [hm, mul_div_assoc, div_self hd0, mul_one]
  have hfloor : ⌊F / d⌋ = (m : ℤ) := by rw [hFd]; exact Int.floor_natCast m
  have hceil : ⌈F / d⌉ = (m : ℤ) := by rw [hFd]; exact Int.ceil_natCast m
  refine ⟨by rw [h1, hfloor], ?_, by rw [hFd]; exact round_natCast m⟩
  rw [h2, hceil]
  omega

/-- Witness for `c8_step_count_and_grid` at `F = 1`, `d = 1/2`, `m = 2`. -/
theorem c8_witness :
    count_time_steps 1 (1/2) = ⌊(1 : ℚ) / (1/2)⌋
    ∧ (timeGrid 1 (1/2)).length = (⌈(1 : ℚ) / (1/2)⌉ + 1).toNat
    ∧ (count_time_steps 1 (1/2) = (2 : ℕ) ∧ (timeGrid 1 (1/2)).length = 2 + 1
        ∧ round ((1 : ℚ) / (1/2)) = (2 : ℕ)) :=
  have h := c8_step_count_and_grid 1 (1/2) (by norm_num) (by norm_num)
  ⟨h.1, h.2.1, h.2.2 2 (by norm_num)⟩

/-- Counterexample to C8 as stated: at `F = 2`, `d = 0.3` the analyzer count is
`int(F/d) = 6` while `round(F/d) = 7`; at `F = 1`, `d = 0.45` the grid has 4
points although `round(F/d) + 1 = 3`. -/
theorem c8_counterexample :
    count_time_steps 2 (3/10) = 6 ∧ round ((2 : ℚ) / (3/10)) = 7
    ∧ (timeGrid 1 (9/20)).length = 4 ∧ round ((1 : ℚ) / (9/20)) + 1 = 3 := by
  refine ⟨?_, ?_, ?_, ?_⟩
  · unfold count_time_steps pyInt
    norm_num
  · rw [round_eq]
    norm_num
  · have hc : ⌈((1 : ℚ) + 9/20 - 0) / (9/20)⌉ = 4 := by
      rw [Int.ceil_eq_iff]
      constructor <;> norm_num
    simp only [timeGrid, arangeQ, List.length_map, List.length_range, hc]
    rfl
  · rw [round_eq]
    norm_num

/-! ## Claim C6: unresolved variable references in the objective translator -/

/-- C6 (the failing input evaluated): with optimization enabled and target
expression `sum(q)` on a model having only `x`, `add_optimization_objective`
silently succeeds with the constant-zero objective instead of raising a
configuration error. -/
theorem c6_silent_zero_objective :
    add_optimization_objective ⟨[['x']], [0, 1, 2]⟩
        ⟨true, some ("sum(q)".toList), "minimize".toList, [['k', '_', 'e', 'f', 'f']]⟩
      = .ok (.const 0, .minimize) := rfl

/-! ## Claim C3: unmapped-symbol handling of the constraint rules -/

/-- C3 (amended): when the free-symbol set of a discretized residual minus the
symbol-map keys is non-empty, the monolithic constraint rule raises an error
carrying exactly the missing symbol names (but not the residual), never
defaulting them; when the set is empty it returns the constraint
`substituted expression == 0`; the sequential step rule's unmapped error always
carries both a non-empty missing-symbol list and the offending residual. -/
theorem c3_unmapped_symbol_handling (expr : Expr ℚ) (unknowns : List Str)
    (params : List (Str × ℚ)) (dtv : ℚ) (lks : List Str) (dps : Option (List Str))
    (mv : List Str) (ta : Option (List ℚ)) (i : ℕ) :
    (missingSyms (buildSymbolMap unknowns params dtv lks dps mv ta i) expr ≠ [] →
      generate_constraint_rule expr unknowns params dtv lks dps mv ta i =
        .error (.unmapped
          (missingSyms (buildSymbolMap unknowns params dtv lks dps mv ta i) expr) none))
    ∧ (∀ p, missingSyms (buildSymbolMap unknowns params dtv lks dps mv ta i) expr = [] →
        sympy2pyomo (buildSymbolMap unknowns params dtv lks dps mv ta i) expr = some p →
        generate_constraint_rule expr unknowns params dtv lks dps mv ta i =
          .ok ⟨p, .num 0⟩)
    ∧ (∀ (eq : Expr ℚ × Expr ℚ) (dtv2 tn : ℚ) (unknowns2 lks2 : List Str)
        (params2 cur : List (Str × ℚ)) (ms : List Str) (info : Option (Expr ℚ)),
        step_constraint_rule eq dtv2 tn unknowns2 lks2 params2 cur =
          .error (.unmapped ms info) →
        ms ≠ [] ∧ info.isSome = true) := by
  refine ⟨?_, ?_, ?_⟩
  · intro hne
    unfold generate_constraint_rule
    rw [if_neg (by simpa [List.isEmpty_iff] using hne)]
  · intro p hempty hconv
    unfold generate_constraint_rule
    rw [if_pos (by simpa [List.isEmpty_iff] using hempty), hconv]
  · intro eq dtv2 tn unknowns2 lks2 params2 cur ms info h
    simp only [step_constraint_rule] at h
    split at h
    · split at h
      · cases h
      · cases h
    · rename_i hne
      injection h with h2
      injection h2 with hms hinfo
      subst hms
      subst hinfo
      exact ⟨by simpa [List.isEmpty_iff] using hne, rfl⟩

/-- Counterexample to C3 as stated: the monolithic rule's unmapped-symbol error
names the missing symbol `q` but carries no residual expression
(`ValueError(f"Unmapped symbols detected: ...")`). -/
theorem c3_counterexample :
    generate_constraint_rule (Expr.sym ['q'] : Expr ℚ) [] [] (1/2) [] none [] none 0
      = .error (.unmapped [['q']] none) := rfl

/-- Witness for `c3_unmapped_symbol_handling` at a one-symbol residual. -/
theorem c3_witness :
    generate_constraint_rule (Expr.sym (['q'] ++ ip1Suffix) : Expr ℚ) [['q']] [] (1/2)
        [] none [] none 0 = .ok ⟨.pvar ['q'] 1, .num 0⟩ :=
  (c3_unmapped_symbol_handling (Expr.sym (['q'] ++ ip1Suffix)) [['q']] [] (1/2) [] none
      [] none 0).2.1
    (.pvar ['q'] 1) (by decide) (by decide)

/-! ## Claim C2: discretizer correctness -/

theorem findPat_mem {α : Type} (σ : List (Pat × Expr α)) (e v : Expr α)
    (h : findPat σ e = some v) : ∃ pv ∈ σ, pv.2 = v := by
  unfold findPat at h
  cases hf : σ.find? (fun pv => patMatches pv.1 e) with
  | none => rw [hf] at h; cases h
  | some pv =>
      rw [hf] at h
      injection h with h2
      exact ⟨pv, List.mem_of_find?_eq_some hf, h2⟩

theorem findPat_single {α : Type} (p : Pat) (v : Expr α) (e : Expr α) :
    findPat [(p, v)] e = if patMatches p e then some v else none := by
  by_cases hp : patMatches p e <;> simp [findPat, List.find?, hp]

theorem xreplace_nil {α : Type} : ∀ e : Expr α, xreplace [] e = e := by
  intro e
  induction e with
  | const a => rfl
  | sym s => rfl
  | deriv f => rfl
  | app f a ih => show Expr.app f (xreplace [] a) = _; rw [ih]
  | add a b iha ihb => show Expr.add (xreplace [] a) (xreplace [] b) = _; rw [iha, ihb]
  | sub a b iha ihb => show Expr.sub (xreplace [] a) (xreplace [] b) = _; rw [iha, ihb]
  | mul a b iha ihb => show Expr.mul (xreplace [] a) (xreplace [] b) = _; rw [iha, ihb]
  | div a b iha ihb => show Expr.div (xreplace [] a) (xreplace [] b) = _; rw [iha, ihb]

theorem isSymOf_true_iff {α : Type} (s0 : Str) (a : Expr α) :
    isSymOf s0 a = true ↔ a = Expr.sym s0 := by
  cases a <;> simp [isSymOf]

theorem hasDerivOf_xreplace_pres {α : Type} (f : Str) (σ : List (Pat × Expr α))
    (hσ : ∀ pv ∈ σ, hasDerivOf f pv.2 = false) :
    ∀ e : Expr α, hasDerivOf f e = false → hasDerivOf f (xreplace σ e) = false := by
  intro e
  induction e with
  | const a => intro _; rw [xreplace_const]; rfl
  | sym s =>
      intro he
      cases hf : findPat σ (Expr.sym s) with
      | none => simpa only [xreplace, hf] using he
      | some v =>
          obtain ⟨pv, hm, rfl⟩ := findPat_mem σ _ v hf
          simpa only [xreplace, hf] using hσ pv hm
  | deriv g =>
      intro he
      cases hf : findPat σ (Expr.deriv g) with
      | none => simpa only [xreplace, hf] using he
      | some v =>
          obtain ⟨pv, hm, rfl⟩ := findPat_mem σ _ v hf
          simpa only [xreplace, hf] using hσ pv hm
  | app g a ih =>
      intro he
      cases hf : findPat σ (Expr.app g a) with
      | none =>
          simp only [xreplace, hf, hasDerivOf] at he ⊢
          exact ih he
      | some v =>
          obtain ⟨pv, hm, rfl⟩ := findPat_mem σ _ v hf
          simpa only [xreplace, hf] using hσ pv hm
  | add a b iha ihb =>
      intro he
      cases hf : findPat σ (Expr.add a b) with
      | none =>
          simp only [xreplace, hf, hasDerivOf, Bool.or_eq_false_iff] at he ⊢
          exact ⟨iha he.1, ihb he.2⟩
      | some v =>
          obtain ⟨pv, hm, rfl⟩ := findPat_mem σ _ v hf
          simpa only [xreplace, hf] using hσ pv hm
  | sub a b iha ihb =>
      intro he
      cases hf : findPat σ (Expr.sub a b) with
      | none =>
          simp only [xreplace, hf, hasDerivOf, Bool.or_eq_false_iff] at he ⊢
          exact ⟨iha he.1, ihb he.2⟩
      | some v =>
          obtain ⟨pv, hm, rfl⟩ := findPat_mem σ _ v hf
          simpa only [xreplace, hf] using hσ pv hm
  | mul a b iha ihb =>
      intro he
      cases hf : findPat σ (Expr.mul a b) with
      | none =>
          simp only [xreplace, hf, hasDerivOf, Bool.or_eq_false_iff] at he ⊢
          exact ⟨iha he.1, ihb he.2⟩
      | some v =>
          obtain ⟨pv, hm, rfl⟩ := findPat_mem σ _ v hf
          simpa only [xreplace, hf] using hσ pv hm
  | div a b iha ihb =>
      intro he
      cases hf : findPat σ (Expr.div a b) with
      | none =>
          simp only [xreplace, hf, hasDerivOf, Bool.or_eq_false_iff] at he ⊢
          exact ⟨iha he.1, ihb he.2⟩
      | some v =>
          obtain ⟨pv, hm, rfl⟩ := findPat_mem σ _ v hf
          simpa only [xreplace, hf] using hσ pv hm

theorem hasDerivOf_xreplace_kill {α : Type} (f : Str) (v : Expr α)
    (hv : hasDerivOf f v = false) :
    ∀ e : Expr α, hasDerivOf f (xreplace [(Pat.deriv f, v)] e) = false := by
  intro e
  induction e with
  | const a => rw [xreplace_const]; rfl
  | sym s => simp only [xreplace, findPat_single, patMatches, if_neg]; rfl
  | deriv g =>
      by_cases hg : f = g
      · subst hg
        simpa only [xreplace, findPat_single, patMatches, decide_eq_true_eq, if_pos rfl]
          using hv
      · simp only [xreplace, findPat_single, patMatches]
        rw [if_neg (by simpa using hg)]
        simpa [hasDerivOf] using hg
  | app g a ih =>
      simp only [xreplace, findPat_single, patMatches, if_neg]
      simpa [hasDerivOf] using ih
  | add a b iha ihb =>
      simp only [xreplace, findPat_single, patMatches, if_neg]
      simp [hasDerivOf, iha, ihb]
  | sub a b iha ihb =>
      simp only [xreplace, findPat_single, patMatches, if_neg]
      simp [hasDerivOf, iha, ihb]
  | mul a b iha ihb =>
      simp only [xreplace, findPat_single, patMatches, if_neg]
      simp [hasDerivOf, iha, ihb]
  | div a b iha ihb =>
      simp only [xreplace, findPat_single, patMatches, if_neg]
      simp [hasDerivOf, iha, ihb]

theorem xreplace_ne_sym {α : Type} (s0 : Str) (σ : List (Pat × Expr α))
    (hσ : ∀ pv ∈ σ, isSymOf s0 pv.2 = false) (a : Expr α)
    (ha : isSymOf s0 a = false) : isSymOf s0 (xreplace σ a) = false := by
  cases a with
  | const c =>
      rw [xreplace_const]
      rfl
  | sym s =>
      cases hf : findPat σ (Expr.sym s) with
      | none => simpa only [xreplace, hf] using ha
      | some v =>
          obtain ⟨pv, hm, rfl⟩ := findPat_mem σ _ v hf
          simpa only [xreplace, hf] using hσ pv hm
  | deriv g =>
      cases hf : findPat σ (Expr.deriv g) with
      | none => simpa only [xreplace, hf] using ha
      | some v =>
          obtain ⟨pv, hm, rfl⟩ := findPat_mem σ _ v hf
          simpa only [xreplace, hf] using hσ pv hm
  | app g a2 =>
      cases hf : findPat σ (Expr.app g a2) with
      | none => simp only [xreplace, hf, isSymOf]
      | some v =>
          obtain ⟨pv, hm, rfl⟩ := findPat_mem σ _ v hf
          simpa only [xreplace, hf] using hσ pv hm
  | add a2 b =>
      cases hf : findPat σ (Expr.add a2 b) with
      | none => simp only [xreplace, hf, isSymOf]
      | some v =>
          obtain ⟨pv, hm, rfl⟩ := findPat_mem σ _ v hf
          simpa only [xreplace, hf] using hσ pv hm
  | sub a2 b =>
      cases hf : findPat σ (Expr.sub a2 b) with
      | none => simp only [xreplace, hf, isSymOf]
      | some v =>
          obtain ⟨pv, hm, rfl⟩ := findPat_mem σ _ v hf
          simpa only [xreplace, hf] using hσ pv hm
  | mul a2 b =>
      cases hf : findPat σ (Expr.mul a2 b) with
      | none => simp only [xreplace, hf, isSymOf]
      | some v =>
          obtain ⟨pv, hm, rfl⟩ := findPat_mem σ _ v hf
          simpa only [xreplace, hf] using hσ pv hm
  | div a2 b =>
      cases hf : findPat σ (Expr.div a2 b) with
      | none => simp only [xreplace, hf, isSymOf]
      | some v =>
          obtain ⟨pv, hm, rfl⟩ := findPat_mem σ _ v hf
          simpa only [xreplace, hf] using hσ pv hm

theorem patMatches_appSym_false {α : Type} (f s : Str) (g : Str) (a : Expr α)
    (hm : patMatches (Pat.appSym f s) (Expr.app g a) = false) (hfg : f = g) :
    isSymOf s a = false := by
  cases a with
  | sym s2 =>
      subst hfg
      simp only [patMatches, decide_eq_true_eq, Bool.and_eq_false_iff,
        decide_eq_false_iff_not] at hm
      rcases hm with h | h
      · exact absurd trivial h
      · simp only [isSymOf, decide_eq_false_iff_not]
        exact fun h2 => h h2.symm
  | const c => rfl
  | deriv g2 => rfl
  | app g2 a2 => rfl
  | add a2 b => rfl
  | sub a2 b => rfl
  | mul a2 b => rfl
  | div a2 b => rfl

theorem hasAppT_xreplace_pres {α : Type} (f : Str) (σ : List (Pat × Expr α))
    (hσ : ∀ pv ∈ σ, hasAppT f pv.2 = false ∧ isSymOf tStr pv.2 = false) :
    ∀ e : Expr α, hasAppT f e = false → hasAppT f (xreplace σ e) = false := by
  intro e
  induction e with
  | const a => intro _; rw [xreplace_const]; rfl
  | sym s =>
      intro he
      cases hf : findPat σ (Expr.sym s) with
      | none => simpa only [xreplace, hf] using he
      | some v =>
          obtain ⟨pv, hm, rfl⟩ := findPat_mem σ _ v hf
          simpa only [xreplace, hf] using (hσ pv hm).1
  | deriv g =>
      intro he
      cases hf : findPat σ (Expr.deriv g) with
      | none => simpa only [xreplace, hf] using he
      | some v =>
          obtain ⟨pv, hm, rfl⟩ := findPat_mem σ _ v hf
          simpa only [xreplace, hf] using (hσ pv hm).1
  | app g a ih =>
      intro he
      cases hf : findPat σ (Expr.app g a) with
      | some v =>
          obtain ⟨pv, hm, rfl⟩ := findPat_mem σ _ v hf
          simpa only [xreplace, hf] using (hσ pv hm).1
      | none =>
          simp only [xreplace, hf, hasAppT, Bool.or_eq_false_iff,
            Bool.and_eq_false_iff] at he ⊢
          refine ⟨?_, ih he.2⟩
          rcases he.1 with hfg | hsym
          · exact Or.inl hfg
          · exact Or.inr (xreplace_ne_sym tStr σ (fun pv hm => (hσ pv hm).2) a hsym)
  | add a b iha ihb =>
      intro he
      cases hf : findPat σ (Expr.add a b) with
      | some v =>
          obtain ⟨pv, hm, rfl⟩ := findPat_mem σ _ v hf
          simpa only [xreplace, hf] using (hσ pv hm).1
      | none =>
          simp only [xreplace, hf, hasAppT, Bool.or_eq_false_iff] at he ⊢
          exact ⟨iha he.1, ihb he.2⟩
  | sub a b iha ihb =>
      intro he
      cases hf : findPat σ (Expr.sub a b) with
      | some v =>
          obtain ⟨pv, hm, rfl⟩ := findPat_mem σ _ v hf
          simpa only [xreplace, hf] using (hσ pv hm).1
      | none =>
          simp only [xreplace, hf, hasAppT, Bool.or_eq_false_iff] at he ⊢
          exact ⟨iha he.1, ihb he.2⟩
  | mul a b iha ihb =>
      intro he
      cases hf : findPat σ (Expr.mul a b) with
      | some v =>
          obtain ⟨pv, hm, rfl⟩ := findPat_mem σ _ v hf
          simpa only [xreplace, hf] using (hσ pv hm).1
      | none =>
          simp only [xreplace, hf, hasAppT, Bool.or_eq_false_iff] at he ⊢
          exact ⟨iha he.1, ihb he.2⟩
  | div a b iha ihb =>
      intro he
      cases hf : findPat σ (Expr.div a b) with
      | some v =>
          obtain ⟨pv, hm, rfl⟩ := findPat_mem σ _ v hf
          simpa only [xreplace, hf] using (hσ pv hm).1
      | none =>
          simp only [xreplace, hf, hasAppT, Bool.or_eq_false_iff] at he ⊢
          exact ⟨iha he.1, ihb he.2⟩

theorem hasAppT_xreplace_kill {α : Type} (f s : Str) (hs : s ≠ tStr) (e : Expr α) :
    hasAppT f (xreplace [(Pat.appSym f tStr, Expr.sym s)] e) = false := by
  have hval : ∀ pv ∈ ([(Pat.appSym f tStr, Expr.sym s)] : List (Pat × Expr α)),
      isSymOf tStr pv.2 = false := by
    intro pv hpv
    simp only [List.mem_singleton] at hpv
    subst hpv
    simp [isSymOf, hs]
  induction e with
  | const a => rw [xreplace_const]; rfl
  | sym s2 => simp [xreplace, findPat_single, patMatches, hasAppT]
  | deriv g => simp [xreplace, findPat_single, patMatches, hasAppT]
  | app g a ih =>
      by_cases hm : patMatches (Pat.appSym f tStr) (Expr.app g a) = true
      · simp only [xreplace, findPat_single, if_pos hm]
        simp [hasAppT]
      · have hm2 : patMatches (Pat.appSym f tStr) (Expr.app g a) = false := by
          simpa using hm
        simp only [xreplace, findPat_single, hm2, if_false, Bool.false_eq_true,
          hasAppT, Bool.or_eq_false_iff, Bool.and_eq_false_iff]
        refine ⟨?_, ih⟩
        by_cases hfg : f = g
        · exact Or.inr (xreplace_ne_sym tStr _ hval a
            (patMatches_appSym_false f tStr g a hm2 hfg))
        · exact Or.inl (by simpa using hfg)
  | add a b iha ihb =>
      simp only [xreplace, findPat_single, patMatches, hasAppT]
      simp [iha, ihb]
  | sub a b iha ihb =>
      simp only [xreplace, findPat_single, patMatches, hasAppT]
      simp [iha, ihb]
  | mul a b iha ihb =>
      simp only [xreplace, findPat_single, patMatches, hasAppT]
      simp [iha, ihb]
  | div a b iha ihb =>
      simp only [xreplace, findPat_single, patMatches, hasAppT]
      simp [iha, ihb]

theorem append_ip1_ne_t (f : Str) : f ++ ip1Suffix ≠ tStr := by
  intro h
  have hlen := congrArg List.length h
  simp [ip1Suffix, tStr] at hlen

theorem upper_ip1_ne_t (k : Str) : toUpperStr k ++ ip1Suffix ≠ tStr := by
  intro h
  have hlen := congrArg List.length h
  simp [ip1Suffix, tStr, toUpperStr] at hlen

theorem unkStep_noDA_self {α : Type} (f : Str) (dt : α) (e : Expr α) :
    hasDerivOf f (unkStep dt e f) = false ∧ hasAppT f (unkStep dt e f) = false := by
  unfold unkStep
  constructor
  · refine hasDerivOf_xreplace_pres f _ ?_ _ ?_
    · intro pv hpv
      simp only [List.mem_singleton] at hpv
      subst hpv
      rfl
    · exact hasDerivOf_xreplace_kill f
        (Expr.div (Expr.sub (.sym (f ++ ip1Suffix)) (.sym (f ++ iSuffix))) (.const dt))
        rfl _
  · exact hasAppT_xreplace_kill f (f ++ ip1Suffix) (append_ip1_ne_t f) _

theorem unkStep_noDA_pres {α : Type} (f g : Str) (dt : α) (e : Expr α)
    (hd : hasDerivOf f e = false) (ha : hasAppT f e = false) :
    hasDerivOf f (unkStep dt e g) = false ∧ hasAppT f (unkStep dt e g) = false := by
  unfold unkStep
  constructor
  · refine hasDerivOf_xreplace_pres f _ ?_ _ ?_
    · intro pv hpv
      simp only [List.mem_singleton] at hpv
      subst hpv
      rfl
    · refine hasDerivOf_xreplace_pres f _ ?_ _ hd
      intro pv hpv
      simp only [List.mem_singleton] at hpv
      subst hpv
      rfl
  · refine hasAppT_xreplace_pres f _ ?_ _ ?_
    · intro pv hpv
      simp only [List.mem_singleton] at hpv
      subst hpv
      exact ⟨rfl, by simp [isSymOf, append_ip1_ne_t g]⟩
    · refine hasAppT_xreplace_pres f _ ?_ _ ha
      intro pv hpv
      simp only [List.mem_singleton] at hpv
      subst hpv
      exact ⟨rfl, rfl⟩

theorem foldl_unkStep_pres {α : Type} (f : Str) (dt : α) (l : List Str) :
    ∀ e : Expr α, hasDerivOf f e = false → hasAppT f e = false →
      hasDerivOf f (l.foldl (unkStep dt) e) = false
      ∧ hasAppT f (l.foldl (unkStep dt) e) = false := by
  induction l with
  | nil => exact fun e hd ha => ⟨hd, ha⟩
  | cons g rest ih =>
      intro e hd ha
      rw [List.foldl_cons]
      obtain ⟨hd2, ha2⟩ := unkStep_noDA_pres f g dt e hd ha
      exact ih _ hd2 ha2

theorem foldl_unkStep_noDA {α : Type} (f : Str) (dt : α) (l : List Str) :
    ∀ e : Expr α, f ∈ l →
      hasDerivOf f (l.foldl (unkStep dt) e) = false
      ∧ hasAppT f (l.foldl (unkStep dt) e) = false := by
  induction l with
  | nil => exact fun e hf => absurd hf (List.not_mem_nil f)
  | cons g rest ih =>
      intro e hf
      rw [List.foldl_cons]
      by_cases hg : g = f
      · subst hg
        obtain ⟨hd0, ha0⟩ := unkStep_noDA_self g dt e
        exact foldl_unkStep_pres g dt rest _ hd0 ha0
      · rcases List.mem_cons.mp hf with h | h
        · exact absurd h.symm hg
        · exact ih _ h

theorem dpsPass_pres {α : Type} (f : Str) (dps : List Str) :
    tStr ∉ dps → ∀ e : Expr α, hasDerivOf f e = false → hasAppT f e = false →
      hasDerivOf f (dps.foldl
        (fun r v => xreplace [(Pat.appSym v tStr, Expr.sym v)] r) e) = false
      ∧ hasAppT f (dps.foldl
        (fun r v => xreplace [(Pat.appSym v tStr, Expr.sym v)] r) e) = false := by
  induction dps with
  | nil => exact fun _ e hd ha => ⟨hd, ha⟩
  | cons v rest ih =>
      intro ht e hd ha
      rw [List.foldl_cons]
      have hvne : v ≠ tStr := fun h => ht (h ▸ List.mem_cons_self v rest)
      refine ih (fun h => ht (List.mem_cons_of_mem v h)) _ ?_ ?_
      · refine hasDerivOf_xreplace_pres f _ ?_ _ hd
        intro pv hpv
        simp only [List.mem_singleton] at hpv
        subst hpv
        rfl
      · refine hasAppT_xreplace_pres f _ ?_ _ ha
        intro pv hpv
        simp only [List.mem_singleton] at hpv
        subst hpv
        exact ⟨rfl, by simp [isSymOf, hvne]⟩

theorem lookupPass_pres {α : Type} (f : Str) (lks : List Str) :
    ∀ e : Expr α, hasDerivOf f e = false → hasAppT f e = false →
      hasDerivOf f (lks.foldl
        (fun r k => xreplace
          [(Pat.appSym k xip1Str, Expr.sym (toUpperStr k ++ ip1Suffix))] r) e) = false
      ∧ hasAppT f (lks.foldl
        (fun r k => xreplace
          [(Pat.appSym k xip1Str, Expr.sym (toUpperStr k ++ ip1Suffix))] r) e) = false := by
  induction lks with
  | nil => exact fun e hd ha => ⟨hd, ha⟩
  | cons k rest ih =>
      intro e hd ha
      rw [List.foldl_cons]
      refine ih _ ?_ ?_
      · refine hasDerivOf_xreplace_pres f _ ?_ _ hd
        intro pv hpv
        simp only [List.mem_singleton] at hpv
        subst hpv
        rfl
      · refine hasAppT_xreplace_pres f _ ?_ _ ha
        intro pv hpv
        simp only [List.mem_singleton] at hpv
        subst hpv
        exact ⟨rfl, by simp [isSymOf, upper_ip1_ne_t k]⟩

theorem discretize_noDA {α : Type} (lhs rhs : Expr α) (dt : α)
    (unknowns dps lks : List Str) (f : Str) (hf : f ∈ unknowns) (ht : tStr ∉ dps) :
    hasDerivOf f (discretize_symbolic_eq (lhs, rhs) dt unknowns dps [] lks) = false
    ∧ hasAppT f (discretize_symbolic_eq (lhs, rhs) dt unknowns dps [] lks) = false := by
  simp only [discretize_symbolic_eq, simplifyE]
  rw [xreplace_nil]
  obtain ⟨hd1, ha1⟩ := foldl_unkStep_noDA f dt unknowns (Expr.sub lhs rhs) hf
  obtain ⟨hd2, ha2⟩ := dpsPass_pres f dps ht _ hd1 ha1
  exact lookupPass_pres f lks _ hd2 ha2

/-- C2: for the equation `dx/dt = a` (`x` a declared unknown function, `a` a
parameter symbol) and any nonzero step value `h`, the discretized residual
evaluated at `x_i = c0`, `x_ip1 = c1` equals `(c1 - c0)/h - a` (the step value
`h` is substituted numerically by the discretizer, so the `dt` of the claim is
the `h` baked into the residual); and generally, for every input equation,
every declared unknown `f` has every occurrence of `Derivative(f(t), t)`
replaced (none remain) and every remaining call `f(t)` replaced by `f_ip1`
(none remain), provided no discrete parameter is named `t` (stated for an empty
`replacement_dict`, as in both builder call sites). -/
theorem c2_discretizer (h c0 c1 a : ℚ) (hh : h ≠ 0) :
    evalE (fun s => if s = "x_ip1".toList then c1 else if s = "x_i".toList then c0 else a)
        (discretize_symbolic_eq (Expr.deriv ['x'], Expr.sym ['a']) h [['x']] [] [] [])
      = some ((c1 - c0) / h - a)
    ∧ ∀ (lhs rhs : Expr ℚ) (unknowns dps lks : List Str) (f : Str),
        f ∈ unknowns → tStr ∉ dps →
        hasDerivOf f (discretize_symbolic_eq (lhs, rhs) h unknowns dps [] lks) = false
        ∧ hasAppT f (discretize_symbolic_eq (lhs, rhs) h unknowns dps [] lks) = false := by
  constructor
  · rfl
  · intro lhs rhs unknowns dps lks f hf ht
    exact discretize_noDA lhs rhs h unknowns dps lks f hf ht

/-- Witness for `c2_discretizer` at `h = 1`, `c0 = 3`, `c1 = 5`, `a = 7`. -/
theorem c2_witness :
    (1 : ℚ) ≠ 0
    ∧ evalE (fun s => if s = "x_ip1".toList then (5 : ℚ)
          else if s = "x_i".toList then 3 else 7)
        (discretize_symbolic_eq (Expr.deriv ['x'], Expr.sym ['a']) 1 [['x']] [] [] [])
      = some ((5 - 3) / 1 - 7) :=
  ⟨by norm_num, (c2_discretizer 1 3 5 7 (by norm_num)).1⟩

/-! ## Claim C9: lookup replacement only fires on the literal argument `x_ip1` -/

/-- C9 (amended): a lookup call `LOOKUP(arg)` is replaced by `LOOKUP_ip1` only
when `arg` is literally the symbol `x_ip1`; any other argument (for example
`DAMPING(v_ip1)` when the table's independent variable is `v`) leaves the call
in the returned residual.  Because the function head is not a free symbol, the
unmapped-symbol check of the constraint rule does not flag the leftover call
(the missing set is empty); the failure instead surfaces in the
sympy-to-pyomo conversion — the call never becomes a bound lookup output. -/
theorem c9_lookup_argument_mismatch :
    (occursIn (Expr.app ['D', 'A', 'M', 'P', 'I', 'N', 'G']
          (Expr.sym (['v'] ++ ip1Suffix)) : Expr ℚ) c9Disc = true
      ∧ occursIn (Expr.sym (toUpperStr ['D', 'A', 'M', 'P', 'I', 'N', 'G'] ++ ip1Suffix) :
          Expr ℚ) c9Disc = false
      ∧ c9Rule = .error RuleError.conversionFailure
      ∧ missingSyms c9Map c9Disc = [])
    ∧ ∀ {α : Type} (k : Str) (arg v : Expr α),
        isSymOf xip1Str arg = false →
        xreplace [(Pat.appSym k xip1Str, v)] (Expr.app k arg)
          = Expr.app k (xreplace [(Pat.appSym k xip1Str, v)] arg) := by
  constructor
  · exact ⟨by decide, by decide, rfl, by decide⟩
  · intro α k arg v harg
    have hm : patMatches (Pat.appSym k xip1Str) (Expr.app k arg) = false := by
      cases arg with
      | sym s2 =>
          simp only [isSymOf, decide_eq_false_iff_not] at harg
          simp only [patMatches, Bool.and_eq_false_iff, decide_eq_false_iff_not]
          exact Or.inr (fun h => harg h.symm)
      | const c => rfl
      | deriv g => rfl
      | app g a => rfl
      | add a b => rfl
      | sub a b => rfl
      | mul a b => rfl
      | div a b => rfl
    simp [xreplace, findPat_single, hm]

/-- Counterexample to C9 as stated: the leftover call `DAMPING(v_ip1)` does not
surface through the unbound-symbol check (its missing-symbol set is empty, since
an undefined-function head is not a sympy `Symbol`); the rule fails in the
expression conversion instead. -/
theorem c9_counterexample :
    c9Rule = .error RuleError.conversionFailure ∧ missingSyms c9Map c9Disc = [] :=
  ⟨rfl, by decide⟩

/-- Witness for `c9_lookup_argument_mismatch` at the `DAMPING(v_ip1)` node. -/
theorem c9_witness :
    isSymOf xip1Str (Expr.sym (['v'] ++ ip1Suffix) : Expr ℚ) = false
    ∧ xreplace ([(Pat.appSym ['D', 'A', 'M', 'P', 'I', 'N', 'G'] xip1Str,
          Expr.sym (toUpperStr ['D', 'A', 'M', 'P', 'I', 'N', 'G'] ++ ip1Suffix))] :
            List (Pat × Expr ℚ))
        (Expr.app ['D', 'A', 'M', 'P', 'I', 'N', 'G'] (Expr.sym (['v'] ++ ip1Suffix)))
      = Expr.app ['D', 'A', 'M', 'P', 'I', 'N', 'G']
          (xreplace [(Pat.appSym ['D', 'A', 'M', 'P', 'I', 'N', 'G'] xip1Str,
            Expr.sym (toUpperStr ['D', 'A', 'M', 'P', 'I', 'N', 'G'] ++ ip1Suffix))]
            (Expr.sym (['v'] ++ ip1Suffix))) :=
  ⟨by decide, c9_lookup_argument_mismatch.2 ['D', 'A', 'M', 'P', 'I', 'N', 'G'] _ _
    (by decide)⟩

/-! ## Claim C5: objective translator — string lemmas -/

theorem wordChar_ne_of (c d : Char) (hc : isWordChar c = true)
    (hd : isWordChar d = false) : c ≠ d := by
  intro h
  subst h
  rw [hc] at hd
  cases hd

theorem wordChar_not_space (c : Char) (hc : isWordChar c = true) :
    isSpaceChar c = false := by
  cases hsp : isSpaceChar c
  · rfl
  · exfalso
    simp only [isSpaceChar, Bool.or_eq_true, decide_eq_true_eq] at hsp
    obtain ((h | h) | h) | h := hsp <;> subst h <;> exact absurd hc (by decide)

theorem digit_not_space (c : Char) (hc : c.isDigit = true) : isSpaceChar c = false := by
  cases hsp : isSpaceChar c
  · rfl
  · exfalso
    simp only [isSpaceChar, Bool.or_eq_true, decide_eq_true_eq] at hsp
    obtain ((h | h) | h) | h := hsp <;> subst h <;> exact absurd hc (by decide)

theorem digit_ne_of (c d : Char) (hc : c.isDigit = true) (hd : d.isDigit = false) :
    c ≠ d := by
  intro h
  subst h
  rw [hc] at hd
  cases hd

theorem identStart_word (c : Char) (h : isIdentStart c = true) : isWordChar c = true := by
  simp only [isIdentStart, Bool.or_eq_true, decide_eq_true_eq] at h
  rcases h with h | h
  · simp [isWordChar, Char.isAlphanum, h]
  · simp [isWordChar, h]

theorem identStr_all_word (l : Str) (h : isIdentStr l = true) :
    ∀ c ∈ l, isWordChar c = true := by
  cases l with
  | nil => cases h
  | cons c0 cs =>
      simp only [isIdentStr, Bool.and_eq_true, List.all_eq_true] at h
      intro c hc
      rcases List.mem_cons.mp hc with hceq | hmem
      · subst hceq
        exact identStart_word _ h.1
      · exact h.2 _ hmem

theorem takeWhile_append_of_all (p : Char → Bool) (l r : Str)
    (h : ∀ c ∈ l, p c = true) :
    (l ++ r).takeWhile p = l ++ r.takeWhile p := by
  induction l with
  | nil => simp
  | cons c cs ih =>
      have hc := h c (List.mem_cons_self c cs)
      simp only [List.cons_append, List.takeWhile_cons, hc, if_true]
      rw [ih (fun d hd => h d (List.mem_cons_of_mem c hd))]

theorem takeWhile_cons_of_neg (p : Char → Bool) (c : Char) (l : Str)
    (h : p c = false) : (c :: l).takeWhile p = [] := by
  simp only [List.takeWhile_cons, h, Bool.false_eq_true, if_false]

theorem dropWhile_eq_self_of_all (p : Char → Bool) (l : Str)
    (h : ∀ c ∈ l, p c = false) : l.dropWhile p = l := by
  cases l with
  | nil => rfl
  | cons c cs =>
      simp only [List.dropWhile_cons, h c (List.mem_cons_self c cs),
        Bool.false_eq_true, if_false]

theorem trimL_eq_self (l : Str) (h : ∀ c ∈ l, isSpaceChar c = false) : trimL l = l := by
  unfold trimL
  rw [dropWhile_eq_self_of_all _ l h,
    dropWhile_eq_self_of_all _ _ (fun c hc => h c (List.mem_reverse.mp hc)),
    List.reverse_reverse]

theorem mem_of_strContains (pat s : Str) (h : strContains pat s = true) :
    ∀ c ∈ pat, c ∈ s := by
  induction s with
  | nil =>
      simp only [strContains, List.isEmpty_iff] at h
      subst h
      intro c hc
      cases hc
  | cons c0 rest ih =>
      simp only [strContains, Bool.or_eq_true] at h
      rcases h with h | h
      · intro c hc
        exact (List.isPrefixOf_iff_prefix.mp h).subset hc
      · intro c hc
        exact List.mem_cons_of_mem c0 (ih h c hc)

theorem strContains_eq_false_of_missing (pat s : Str) (c : Char) (hc : c ∈ pat)
    (hs : c ∉ s) : strContains pat s = false := by
  cases h : strContains pat s
  · rfl
  · exact absurd (mem_of_strContains pat s h c hc) hs

theorem strContains_of_isPrefixOf (pat s : Str) (h : pat.isPrefixOf s = true) :
    strContains pat s = true := by
  cases s with
  | nil =>
      cases pat with
      | nil => rfl
      | cons c cs => cases h
  | cons c0 rest => simp [strContains, h]

theorem strContains_append_right (pat l r : Str) (h : strContains pat r = true) :
    strContains pat (l ++ r) = true := by
  induction l with
  | nil => simpa
  | cons c cs ih => simp [strContains, ih]

theorem strContains_self (pat : Str) : strContains pat pat = true :=
  strContains_of_isPrefixOf pat pat
    (List.isPrefixOf_iff_prefix.mpr (List.prefix_rfl))

theorem findSumInner_exact (mid rest : Str) (hne : mid ≠ [])
    (hmid : ∀ c ∈ mid, (c ≠ ')') = true) :
    findSumInner ('s' :: 'u' :: 'm' :: '(' :: (mid ++ ')' :: rest)) = some mid := by
  have htw : (mid ++ ')' :: rest).takeWhile (fun c => c ≠ ')') = mid := by
    rw [takeWhile_append_of_all _ mid _ (by simpa using hmid),
      takeWhile_cons_of_neg _ _ _ (by simp), List.append_nil]
  have hmA : sumMatchAt ('s' :: 'u' :: 'm' :: '(' :: (mid ++ ')' :: rest)) = some mid := by
    simp only [sumMatchAt, htw]
    rw [if_neg (by simpa [List.isEmpty_iff] using hne), List.drop_left]
    simp
  simp only [findSumInner, hmA]

theorem findPointMatch_exact (c0 : Char) (cs inner rest : Str)
    (hc0 : isIdentStart c0 = true) (hcs : ∀ c ∈ cs, isWordChar c = true)
    (hinner_ne : inner ≠ []) (hinner : ∀ c ∈ inner, (c ≠ ']') = true) :
    findPointMatch (c0 :: (cs ++ '[' :: (inner ++ ']' :: rest))) = some (c0 :: cs, inner) := by
  have htw : (cs ++ '[' :: (inner ++ ']' :: rest)).takeWhile isWordChar = cs := by
    rw [takeWhile_append_of_all _ cs _ hcs,
      takeWhile_cons_of_neg _ _ _ (by decide), List.append_nil]
  have htw2 : (inner ++ ']' :: rest).takeWhile (fun ch => ch ≠ ']') = inner := by
    rw [takeWhile_append_of_all _ inner _ (by simpa using hinner),
      takeWhile_cons_of_neg _ _ _ (by simp), List.append_nil]
  simp only [findPointMatch, hc0, if_true, htw, List.drop_left, htw2]
  rw [if_neg (by simpa [List.isEmpty_iff] using hinner_ne)]
  simp

theorem stripPow2_cons_ne (c : Char) (l : Str) (hc : c ≠ '*') :
    stripPow2 (c :: l) = c :: stripPow2 l := by
  match l with
  | [] => rfl
  | [d] => rfl
  | d :: e :: rest =>
      simp only [stripPow2]
      rw [if_neg (fun h => hc h.1)]

theorem stripPow2_append_pow2 (name : Str) (h : ∀ c ∈ name, isWordChar c = true) :
    stripPow2 (name ++ ['*', '*', '2']) = name := by
  induction name with
  | nil => rfl
  | cons c cs ih =>
      have hcw : c ≠ '*' :=
        wordChar_ne_of c '*' (h c (List.mem_cons_self c cs)) (by decide)
      rw [List.cons_append, stripPow2_cons_ne c _ hcw,
        ih (fun d hd => h d (List.mem_cons_of_mem c hd))]

theorem parsePyInt_digits (l : Str) (hne : l ≠ [])
    (h : ∀ c ∈ l, c.isDigit = true) :
    parsePyInt l = some ((digitsToNat l : ℤ)) := by
  have htrim : trimL l = l :=
    trimL_eq_self l (fun c hc => digit_not_space c (h c hc))
  cases l with
  | nil => exact absurd rfl hne
  | cons c ds =>
      have hcd := h c (List.mem_cons_self c ds)
      simp only [parsePyInt, htrim]
      rw [if_neg (digit_ne_of c '-' hcd (by decide)),
        if_neg (digit_ne_of c '+' hcd (by decide)),
        if_pos (by simpa [List.all_eq_true] using h)]

theorem evalO_foldl_add (σ : Str → ℕ → ℚ) (g : ℕ → OExpr) (T : List ℕ) (acc : OExpr) :
    evalO σ (T.foldl (fun a t => .add a (g t)) acc)
      = evalO σ acc + (T.map (fun t => evalO σ (g t))).sum := by
  induction T generalizing acc with
  | nil => simp
  | cons t ts ih =>
      rw [List.foldl_cons, ih, List.map_cons, List.sum_cons]
      simp [evalO]
      ring

theorem evalO_sumLinear (σ : Str → ℕ → ℚ) (name : Str) (T : List ℕ) :
    evalO σ (sumLinear name T) = (T.map (σ name)).sum := by
  unfold sumLinear
  rw [evalO_foldl_add σ (fun t => .pvar name t) T (.const 0)]
  simp [evalO]

theorem evalO_sumSquares (σ : Str → ℕ → ℚ) (name : Str) (T : List ℕ) :
    evalO σ (sumSquares name T) = (T.map (fun t => σ name t ^ 2)).sum := by
  unfold sumSquares
  rw [evalO_foldl_add σ (fun t => .pow (.pvar name t) 2) T (.const 0)]
  simp [evalO]

theorem not_mem_of_word (name : Str) (hword : ∀ c ∈ name, isWordChar c = true)
    (d : Char) (hd : isWordChar d = false) : d ∉ name := by
  intro hmem
  rw [hword d hmem] at hd
  cases hd

theorem parsePoint_named (M : PModel) (name idxStr : Str)
    (hname : isIdentStr name = true) (hidx_ne : idxStr ≠ [])
    (hidx : ∀ c ∈ idxStr, (c ≠ ']') = true) :
    parsePointE M (name ++ '[' :: (idxStr ++ [']'])) =
      (if name ∈ M.vars then
        (if idxStr = ['-', '1'] then OExpr.pvar name (M.tIndex.getLastD 0)
         else if idxStr = ['0'] then OExpr.pvar name (M.tIndex.headD 0)
         else match parsePyInt idxStr with
          | none => OExpr.pvar name (M.tIndex.getLastD 0)
          | some k =>
              if k < (M.tIndex.length : ℤ) then
                (match pyListGet M.tIndex k with
                  | some t => OExpr.pvar name t
                  | none => OExpr.pvar name (M.tIndex.getLastD 0))
              else OExpr.pvar name (M.tIndex.getLastD 0))
      else .const 0) := by
  cases name with
  | nil => cases hname
  | cons c0 cs =>
      simp only [isIdentStr, Bool.and_eq_true, List.all_eq_true] at hname
      rw [List.cons_append]
      unfold parsePointE
      rw [findPointMatch_exact c0 cs idxStr [] hname.1 hname.2 hidx_ne hidx]

theorem parse_entry_point (M : PModel) (name idxStr : Str)
    (hword : ∀ c ∈ name, isWordChar c = true) (hidxp : '(' ∉ idxStr) :
    parse_tensor_expression M (name ++ '[' :: (idxStr ++ [']'])) =
      parsePointE M (name ++ '[' :: (idxStr ++ [']'])) := by
  have hnp : '(' ∉ name ++ '[' :: (idxStr ++ [']']) := by
    intro hmem
    rcases List.mem_append.mp hmem with h | h
    · exact not_mem_of_word name hword '(' (by decide) h
    · rcases List.mem_cons.mp h with h2 | h2
      · exact absurd h2 (by decide)
      · rcases List.mem_append.mp h2 with h3 | h3
        · exact hidxp h3
        · rcases List.mem_cons.mp h3 with h4 | h4
          · exact absurd h4 (by decide)
          · cases h4
  have hbr : strContains ['['] (name ++ '[' :: (idxStr ++ [']'])) = true :=
    strContains_append_right _ name _ (strContains_of_isPrefixOf _ _ (by simp))
  unfold parse_tensor_expression
  rw [if_neg (by
    rw [strContains_eq_false_of_missing ['s', 'u', 'm', '('] _ '(' (by decide) hnp]
    exact Bool.false_ne_true), if_pos hbr]

/-- C5 (amended): on a model carrying variable `name`, the objective translator
maps `sum(<name>)` to the linear sum over all timesteps, `sum(<name>**2)` to
the sum of squares, `sum(abs(<name>))` to the constant `0` (the inner regex
`sum\(([^)]+)\)` truncates at the first closing parenthesis and `_parse_sum`
has no `abs` branch, so the documented sum-of-squares approximation never
fires), `<name>[0]` to the first timestep, `<name>[-1]` to the last timestep,
`<name>[k]` for a non-negative decimal literal `k` to timestep `k` when
`k < #timesteps` and to the last timestep otherwise (negative indices other
than `-1` follow Python list indexing, see the counterexample), and a bare
`<name>` to the sum of squares. -/
theorem c5_objective_translator (M : PModel) (name : Str) (σ : Str → ℕ → ℚ)
    (hname : isIdentStr name = true) (hmem : name ∈ M.vars)
    (hvars : ∀ v ∈ M.vars, isIdentStr v = true) (hT : M.tIndex ≠ []) :
    evalO σ (parse_tensor_expression M ("sum(".toList ++ name ++ ")".toList))
      = (M.tIndex.map (σ name)).sum
    ∧ evalO σ (parse_tensor_expression M ("sum(".toList ++ name ++ "**2)".toList))
      = (M.tIndex.map (fun t => σ name t ^ 2)).sum
    ∧ parse_tensor_expression M ("sum(abs(".toList ++ name ++ "))".toList) = .const 0
    ∧ parse_tensor_expression M (name ++ '[' :: (['0'] ++ [']']))
      = .pvar name (M.tIndex.headD 0)
    ∧ parse_tensor_expression M (name ++ '[' :: (['-', '1'] ++ [']']))
      = .pvar name (M.tIndex.getLastD 0)
    ∧ (∀ (idxStr : Str) (k : ℤ), idxStr ≠ [] → (∀ c ∈ idxStr, c.isDigit = true) →
        parsePyInt idxStr = some k →
        parse_tensor_expression M (name ++ '[' :: (idxStr ++ [']']))
          = .pvar name (if k < (M.tIndex.length : ℤ)
              then M.tIndex.getD k.toNat 0 else M.tIndex.getLastD 0))
    ∧ evalO σ (parse_tensor_expression M name)
      = (M.tIndex.map (fun t => σ name t ^ 2)).sum := by
  have hword : ∀ c ∈ name, isWordChar c = true := identStr_all_word name hname
  have hnospace : ∀ c ∈ name, isSpaceChar c = false :=
    fun c hc => wordChar_not_space c (hword c hc)
  have hnoparen : ∀ c ∈ name, (c ≠ ')') = true :=
    fun c hc => by simpa using wordChar_ne_of c ')' (hword c hc) (by decide)
  have hne : name ≠ [] := by
    intro h
    rw [h] at hname
    cases hname
  have hstar : '*' ∉ name := not_mem_of_word name hword '*' (by decide)
  have htrim : trimL name = name := trimL_eq_self name hnospace
  refine ⟨?_, ?_, ?_, ?_, ?_, ?_, ?_⟩
  · have e1 : ("sum(".toList ++ name ++ ")".toList)
        = 's' :: 'u' :: 'm' :: '(' :: (name ++ [')']) := rfl
    rw [e1]
    unfold parse_tensor_expression
    rw [if_pos (strContains_of_isPrefixOf ['s', 'u', 'm', '(']
      ('s' :: 'u' :: 'm' :: '(' :: (name ++ [')'])) (by simp [List.isPrefixOf]))]
    unfold parseSumE
    simp only [findSumInner_exact name [] hne hnoparen]
    rw [htrim,
      if_neg (by
        rw [strContains_eq_false_of_missing ['*', '*', '2'] name '*' (by decide) hstar]
        exact Bool.false_ne_true),
      if_pos hmem]
    exact evalO_sumLinear σ name M.tIndex
  · have e2 : ("sum(".toList ++ name ++ "**2)".toList)
        = 's' :: 'u' :: 'm' :: '(' :: ((name ++ ['*', '*', '2']) ++ [')']) := by
      simp
    rw [e2]
    unfold parse_tensor_expression
    rw [if_pos (strContains_of_isPrefixOf ['s', 'u', 'm', '(']
      ('s' :: 'u' :: 'm' :: '(' :: ((name ++ ['*', '*', '2']) ++ [')'])) (by simp [List.isPrefixOf]))]
    unfold parseSumE
    simp only [findSumInner_exact (name ++ ['*', '*', '2']) [] (by simp) (by
      intro c hc
      rcases List.mem_append.mp hc with h | h
      · exact hnoparen c h
      · rcases List.mem_cons.mp h with h2 | h2
        · subst h2; decide
        · rcases List.mem_cons.mp h2 with h3 | h3
          · subst h3; decide
          · rcases List.mem_cons.mp h3 with h4 | h4
            · subst h4; decide
            · cases h4)]
    have htrim2 : trimL (name ++ ['*', '*', '2']) = name ++ ['*', '*', '2'] := by
      refine trimL_eq_self _ ?_
      intro c hc
      rcases List.mem_append.mp hc with h | h
      · exact hnospace c h
      · rcases List.mem_cons.mp h with h2 | h2
        · subst h2; decide
        · rcases List.mem_cons.mp h2 with h3 | h3
          · subst h3; decide
          · rcases List.mem_cons.mp h3 with h4 | h4
            · subst h4; decide
            · cases h4
    rw [htrim2,
      if_pos (strContains_append_right ['*', '*', '2'] name ['*', '*', '2']
        (strContains_self ['*', '*', '2'])),
      stripPow2_append_pow2 name hword, htrim, if_pos hmem]
    exact evalO_sumSquares σ name M.tIndex
  · have e3 : ("sum(abs(".toList ++ name ++ "))".toList)
        = 's' :: 'u' :: 'm' :: '(' ::
            (('a' :: 'b' :: 's' :: '(' :: name) ++ ')' :: [')']) := by simp
    rw [e3]
    unfold parse_tensor_expression
    rw [if_pos (strContains_of_isPrefixOf ['s', 'u', 'm', '(']
      ('s' :: 'u' :: 'm' :: '(' ::
        (('a' :: 'b' :: 's' :: '(' :: name) ++ ')' :: [')'])) (by simp [List.isPrefixOf]))]
    unfold parseSumE
    simp only [findSumInner_exact ('a' :: 'b' :: 's' :: '(' :: name) [')'] (by simp) (by
      intro c hc
      rcases List.mem_cons.mp hc with h | h
      · subst h; decide
      · rcases List.mem_cons.mp h with h2 | h2
        · subst h2; decide
        · rcases List.mem_cons.mp h2 with h3 | h3
          · subst h3; decide
          · rcases List.mem_cons.mp h3 with h4 | h4
            · subst h4; decide
            · exact hnoparen c h4)]
    have htrim3 : trimL ('a' :: 'b' :: 's' :: '(' :: name)
        = 'a' :: 'b' :: 's' :: '(' :: name := by
      refine trimL_eq_self _ ?_
      intro c hc
      rcases List.mem_cons.mp hc with h | h
      · subst h; decide
      · rcases List.mem_cons.mp h with h2 | h2
        · subst h2; decide
        · rcases List.mem_cons.mp h2 with h3 | h3
          · subst h3; decide
          · rcases List.mem_cons.mp h3 with h4 | h4
            · subst h4; decide
            · exact hnospace c h4
    have hstar3 : strContains ['*', '*', '2'] ('a' :: 'b' :: 's' :: '(' :: name)
        = false := by
      refine strContains_eq_false_of_missing _ _ '*' (by decide) ?_
      intro hmem2
      rcases List.mem_cons.mp hmem2 with h | h
      · exact absurd h (by decide)
      · rcases List.mem_cons.mp h with h2 | h2
        · exact absurd h2 (by decide)
        · rcases List.mem_cons.mp h2 with h3 | h3
          · exact absurd h3 (by decide)
          · rcases List.mem_cons.mp h3 with h4 | h4
            · exact absurd h4 (by decide)
            · exact hstar h4
    have hnm3 : ('a' :: 'b' :: 's' :: '(' :: name) ∉ M.vars := by
      intro hmem3
      have hid := hvars _ hmem3
      have := identStr_all_word _ hid '(' (by simp)
      exact absurd this (by decide)
    rw [htrim3,
      if_neg (by rw [hstar3]; exact Bool.false_ne_true),
      if_neg hnm3]
  · rw [parse_entry_point M name ['0'] hword (by decide),
      parsePoint_named M name ['0'] hname (by decide) (by decide), if_pos hmem]
    rfl
  · rw [parse_entry_point M name ['-', '1'] hword (by decide),
      parsePoint_named M name ['-', '1'] hname (by decide) (by decide), if_pos hmem]
    rfl
  · intro idxStr k hidx_ne hdigits hparse
    have hidxp : '(' ∉ idxStr := by
      intro hmem2
      exact absurd (hdigits '(' hmem2) (by decide)
    rw [parse_entry_point M name idxStr hword hidxp,
      parsePoint_named M name idxStr hname hidx_ne (fun c hc => by
        simpa using digit_ne_of c ']' (hdigits c hc) (by decide)), if_pos hmem]
    have hk : 0 ≤ k := by
      have h2 := hparse
      rw [parsePyInt_digits idxStr hidx_ne hdigits] at h2
      injection h2 with h3
      omega
    by_cases hm1 : idxStr = ['-', '1']
    · exfalso
      subst hm1
      exact absurd (hdigits '-' (List.mem_cons_self _ _)) (by decide)
    · rw [if_neg hm1]
      by_cases h0 : idxStr = ['0']
      · subst h0
        have hk0 : k = 0 := by
          rw [parsePyInt_digits ['0'] (by decide) (by decide)] at hparse
          injection hparse with h2
          simpa [digitsToNat] using h2.symm
        subst hk0
        rw [if_pos rfl]
        cases hTc : M.tIndex with
        | nil => exact absurd hTc hT
        | cons t ts =>
            rw [if_pos (by
              show (0 : ℤ) < ((t :: ts).length : ℤ)
              simp)]
            rfl
      · rw [if_neg h0]
        simp only [hparse]
        by_cases hlt : k < (M.tIndex.length : ℤ)
        · rw [if_pos hlt, if_pos hlt]
          have hlt2 : k.toNat < M.tIndex.length := by omega
          have hget : pyListGet M.tIndex k = some (M.tIndex.getD k.toNat 0) := by
            unfold pyListGet
            rw [if_pos hk, List.get?_eq_getElem?, List.getElem?_eq_getElem hlt2,
              List.getD_eq_getElem M.tIndex 0 hlt2]
          simp only [hget]
        · rw [if_neg hlt, if_neg hlt]
  · unfold parse_tensor_expression
    rw [if_neg (by
      rw [strContains_eq_false_of_missing ['s', 'u', 'm', '('] name '('
        (by decide) (not_mem_of_word name hword '(' (by decide))]
      exact Bool.false_ne_true)]
    rw [if_neg (by
      rw [strContains_eq_false_of_missing ['['] name '['
        (by decide) (not_mem_of_word name hword '[' (by decide))]
      exact Bool.false_ne_true)]
    rw [htrim, if_pos hmem]
    exact evalO_sumSquares σ name M.tIndex

/-- Counterexample for C5: on a model with variable `x` and timesteps `0,1,2`,
the target expression `sum(abs(x))` is translated to the constant `0` and not
to the documented sum-of-squares approximation (the inner regex stops at the
first closing parenthesis, producing the non-variable name `abs(x`), and
`x[-2]` resolves via Python negative list indexing to timestep index `1`
instead of clamping to the last timestep. -/
theorem c5_counterexample :
    parse_tensor_expression ⟨[['x']], [0, 1, 2]⟩ "sum(abs(x))".toList
      = OExpr.const 0 ∧
    OExpr.const 0 ≠ sumSquares ['x'] [0, 1, 2] ∧
    parse_tensor_expression ⟨[['x']], [0, 1, 2]⟩ "x[-2]".toList
      = OExpr.pvar ['x'] 1 ∧
    OExpr.pvar ['x'] 1 ≠ OExpr.pvar ['x'] 2 := by
  refine ⟨by decide, by decide, by decide, by decide⟩

/-- Witness for C5: the translator theorem applied to the model with variable
`x` and timesteps `0,1,2`, evaluating `sum(x)` to `0 + 1 + 2 = 3`. -/
theorem c5_witness :
    (isIdentStr ['x'] = true ∧ ['x'] ∈ ([['x']] : List Str) ∧
      (∀ v ∈ ([['x']] : List Str), isIdentStr v = true) ∧
      ([0, 1, 2] : List ℕ) ≠ []) ∧
    evalO (fun _ t => (t : ℚ)) (parse_tensor_expression ⟨[['x']], [0, 1, 2]⟩
      ("sum(".toList ++ ['x'] ++ ")".toList)) = 3 := by
  refine ⟨⟨by decide, by decide, by decide, by decide⟩, ?_⟩
  have h := (c5_objective_translator ⟨[['x']], [0, 1, 2]⟩ ['x'] (fun _ t => (t : ℚ))
    (by decide) (by decide) (by decide) (by decide)).1
  rw [h]
  norm_num

/-! ## Claim C1: monolithic vs sequential trajectory equivalence -/

theorem initValue_scInit_x {α : Type} [Field α] : initValue (scInit α) ['x'] = 1 := rfl

theorem initValue_scInit_v {α : Type} [Field α] : initValue (scInit α) ['v'] = 0 := rfl

theorem pyMin_scPts {α : Type} [LinearOrderedField α] : pyMin (scPts α) = -2 :=
  min_eq_left (by norm_num)

theorem pyMax_scPts {α : Type} [LinearOrderedField α] : pyMax (scPts α) = 2 :=
  max_eq_right (by norm_num)

theorem scMonoDisc_eq1 {α : Type} [LinearOrderedField α] :
    scMonoDisc α (scEq1 α)
      = .sub (.sub (.div (.sub (.sym (['x'] ++ ip1Suffix)) (.sym (['x'] ++ iSuffix)))
          (.const (1/2))) (.sym (['v'] ++ ip1Suffix))) (.const 0) := rfl

theorem scMonoDisc_eq2 {α : Type} [LinearOrderedField α] :
    scMonoDisc α (scEq2 α)
      = .sub (.sub (.add (.add
          (.mul (.sym ['m']) (.div (.sub (.sym (['v'] ++ ip1Suffix))
            (.sym (['v'] ++ iSuffix))) (.const (1/2))))
          (.mul (.sym (['D', 'A', 'M', 'P', 'I', 'N', 'G'] ++ ip1Suffix))
            (.sym (['v'] ++ ip1Suffix))))
          (.mul (.sym ['k', '_', 'e', 'f', 'f']) (.sym (['x'] ++ ip1Suffix))))
          (.sym ['F'])) (.const 0) := rfl

theorem seqDisc_eq1 {α : Type} [LinearOrderedField α] :
    discretize_symbolic_eq (scEq1 α) (1/2) scUnknowns [] [] scLookups
      = .sub (.sub (.div (.sub (.sym (['x'] ++ ip1Suffix)) (.sym (['x'] ++ iSuffix)))
          (.const (1/2))) (.sym (['v'] ++ ip1Suffix))) (.const 0) := rfl

theorem seqDisc_eq2 {α : Type} [LinearOrderedField α] :
    discretize_symbolic_eq (scEq2 α) (1/2) scUnknowns [] [] scLookups
      = .sub (.sub (.add (.add
          (.mul (.sym ['m']) (.div (.sub (.sym (['v'] ++ ip1Suffix))
            (.sym (['v'] ++ iSuffix))) (.const (1/2))))
          (.mul (.sym (['D', 'A', 'M', 'P', 'I', 'N', 'G'] ++ ip1Suffix))
            (.sym (['v'] ++ ip1Suffix))))
          (.mul (.sym ['k', '_', 'e', 'f', 'f']) (.sym (['x'] ++ ip1Suffix))))
          (.sym ['F'])) (.const 0) := rfl

theorem scMonoRule_eq1_zero {α : Type} [LinearOrderedField α] :
    scMonoRule α (scEq1 α) 0
      = .ok ⟨.sub (.sub (.div (.sub (.pvar ['x'] 1) (.pvar ['x'] 0)) (.num (1/2)))
          (.pvar ['v'] 1)) (.num 0), .num 0⟩ := by
  unfold scMonoRule generate_constraint_rule
  rw [scMonoDisc_eq1]
  rfl

theorem scMonoRule_eq1_one {α : Type} [LinearOrderedField α] :
    scMonoRule α (scEq1 α) 1
      = .ok ⟨.sub (.sub (.div (.sub (.pvar ['x'] 2) (.pvar ['x'] 1)) (.num (1/2)))
          (.pvar ['v'] 2)) (.num 0), .num 0⟩ := by
  unfold scMonoRule generate_constraint_rule
  rw [scMonoDisc_eq1]
  rfl

theorem scMonoRule_eq2_zero {α : Type} [LinearOrderedField α] :
    scMonoRule α (scEq2 α) 0
      = .ok ⟨.sub (.sub (.add (.add
          (.mul (.num 100) (.div (.sub (.pvar ['v'] 1) (.pvar ['v'] 0)) (.num (1/2))))
          (.mul (.pvar ['d', 'a', 'm', 'p', 'i', 'n', 'g'] 1) (.pvar ['v'] 1)))
          (.mul (.num 500) (.pvar ['x'] 1))) (.num 0)) (.num 0), .num 0⟩ := by
  unfold scMonoRule generate_constraint_rule
  rw [scMonoDisc_eq2]
  rfl

theorem scMonoRule_eq2_one {α : Type} [LinearOrderedField α] :
    scMonoRule α (scEq2 α) 1
      = .ok ⟨.sub (.sub (.add (.add
          (.mul (.num 100) (.div (.sub (.pvar ['v'] 2) (.pvar ['v'] 1)) (.num (1/2))))
          (.mul (.pvar ['d', 'a', 'm', 'p', 'i', 'n', 'g'] 2) (.pvar ['v'] 2)))
          (.mul (.num 500) (.pvar ['x'] 2))) (.num 0)) (.num 0), .num 0⟩ := by
  unfold scMonoRule generate_constraint_rule
  rw [scMonoDisc_eq2]
  rfl

theorem stepSubst_eq1 {α : Type} [LinearOrderedField α] (xp vp tn : α) :
    stepSubst scUnknowns scLookups (scParams α) [(['x'], xp), (['v'], vp)] tn
      (.sub (.sub (.div (.sub (.sym (['x'] ++ ip1Suffix)) (.sym (['x'] ++ iSuffix)))
        (.const (1/2))) (.sym (['v'] ++ ip1Suffix))) (.const 0))
      = .sub (.sub (.div (.sub (.sym (['x'] ++ ip1Suffix)) (.const xp))
        (.const (1/2))) (.sym (['v'] ++ ip1Suffix))) (.const 0) := rfl

theorem stepSubst_eq2 {α : Type} [LinearOrderedField α] (xp vp tn : α) :
    stepSubst scUnknowns scLookups (scParams α) [(['x'], xp), (['v'], vp)] tn
      (.sub (.sub (.add (.add
        (.mul (.sym ['m']) (.div (.sub (.sym (['v'] ++ ip1Suffix))
          (.sym (['v'] ++ iSuffix))) (.const (1/2))))
        (.mul (.sym (['D', 'A', 'M', 'P', 'I', 'N', 'G'] ++ ip1Suffix))
          (.sym (['v'] ++ ip1Suffix))))
        (.mul (.sym ['k', '_', 'e', 'f', 'f']) (.sym (['x'] ++ ip1Suffix))))
        (.sym ['F'])) (.const 0))
      = .sub (.sub (.add (.add
        (.mul (.const 100) (.div (.sub (.sym (['v'] ++ ip1Suffix))
          (.const vp)) (.const (1/2))))
        (.mul (.sym (['D', 'A', 'M', 'P', 'I', 'N', 'G'] ++ ip1Suffix))
          (.sym (['v'] ++ ip1Suffix))))
        (.mul (.const 500) (.sym (['x'] ++ ip1Suffix))))
        (.const 0)) (.const 0) := rfl

theorem scSeqRule_eq1 {α : Type} [LinearOrderedField α] (xp vp tn : α) :
    scSeqRule α (scEq1 α) xp vp tn
      = .ok ⟨.sub (.sub (.div (.sub (.pvar ['x'] 0) (.num xp)) (.num (1/2)))
          (.pvar ['v'] 0)) (.num 0), .num 0⟩ := by
  unfold scSeqRule step_constraint_rule
  rw [seqDisc_eq1, stepSubst_eq1]
  rfl

theorem scSeqRule_eq2 {α : Type} [LinearOrderedField α] (xp vp tn : α) :
    scSeqRule α (scEq2 α) xp vp tn
      = .ok ⟨.sub (.sub (.add (.add
          (.mul (.num 100) (.div (.sub (.pvar ['v'] 0) (.num vp)) (.num (1/2))))
          (.mul (.pvar ['d', 'a', 'm', 'p', 'i', 'n', 'g'] 0) (.pvar ['v'] 0)))
          (.mul (.num 500) (.pvar ['x'] 0))) (.num 0)) (.num 0), .num 0⟩ := by
  unfold scSeqRule step_constraint_rule
  rw [seqDisc_eq2, stepSubst_eq2]
  rfl

attribute [irreducible] scMonoRule scSeqRule

theorem mono_seq_eq1_first {α : Type} [LinearOrderedField α]
    (x0 x1 x2 v0 v1 v2 d0 d1 d2 : α) :
    constrSat (scAsn x0 x1 x2 v0 v1 v2 d0 d1 d2) (scMonoRule α (scEq1 α) 0)
    ↔ constrSat (scStepAsn x1 v1 d1) (scSeqRule α (scEq1 α) x0 v0 (1/2)) := by
  rw [scMonoRule_eq1_zero, scSeqRule_eq1]
  exact Iff.rfl

theorem mono_seq_eq1_second {α : Type} [LinearOrderedField α]
    (x0 x1 x2 v0 v1 v2 d0 d1 d2 : α) :
    constrSat (scAsn x0 x1 x2 v0 v1 v2 d0 d1 d2) (scMonoRule α (scEq1 α) 1)
    ↔ constrSat (scStepAsn x2 v2 d2) (scSeqRule α (scEq1 α) x1 v1 1) := by
  rw [scMonoRule_eq1_one, scSeqRule_eq1]
  exact Iff.rfl

theorem mono_seq_eq2_first {α : Type} [LinearOrderedField α]
    (x0 x1 x2 v0 v1 v2 d0 d1 d2 : α) :
    constrSat (scAsn x0 x1 x2 v0 v1 v2 d0 d1 d2) (scMonoRule α (scEq2 α) 0)
    ↔ constrSat (scStepAsn x1 v1 d1) (scSeqRule α (scEq2 α) x0 v0 (1/2)) := by
  rw [scMonoRule_eq2_zero, scSeqRule_eq2]
  exact Iff.rfl

theorem mono_seq_eq2_second {α : Type} [LinearOrderedField α]
    (x0 x1 x2 v0 v1 v2 d0 d1 d2 : α) :
    constrSat (scAsn x0 x1 x2 v0 v1 v2 d0 d1 d2) (scMonoRule α (scEq2 α) 1)
    ↔ constrSat (scStepAsn x2 v2 d2) (scSeqRule α (scEq2 α) x1 v1 1) := by
  rw [scMonoRule_eq2_one, scSeqRule_eq2]
  exact Iff.rfl

/-- C1: for the fixed spring-mass scenario (`dx/dt = v`,
`m*dv/dt + DAMPING(x)*v + k_eff*x = F`, `x(0)=1, v(0)=0, m=100, F=0`,
fixed `k_eff=500`, `dt=0.5`, grid `0, 0.5, 1`), the monolithic constraint
system of `build_global_model` and the chained step systems of
`run_build_sequential_model` admit exactly the same `(x, v)` (and lookup
output) values at grid indices 1 and 2: the solution sets coincide, so a
black-box solver returning any satisfying assignment of either system yields a
trajectory admissible for the other.  The pyomo `Piecewise` interpolation
constraint (identical table data in both builders) is abstracted as the
relation `PW`, assumed total on the table domain `[-2, 2]`. -/
theorem c1_mono_seq_equivalence {α : Type} [LinearOrderedField α]
    (PW : α → α → Prop)
    (hPW : ∀ a : α, -2 ≤ a → a ≤ 2 → ∃ b, PW a b)
    (x1 v1 d1 x2 v2 d2 : α) :
    (∃ x0 v0 d0, monoScenarioSat PW x0 v0 d0 x1 v1 d1 x2 v2 d2)
    ↔ (∃ x0 v0, seqScenarioSat PW x0 v0 x1 v1 d1 x2 v2 d2) := by
  constructor
  · rintro ⟨x0, v0, d0, hm⟩
    simp only [monoScenarioSat] at hm
    obtain ⟨⟨hx0, hv0⟩, ⟨b1, b2, b3, b4, b5, b6⟩, ⟨p0, p1, p2⟩, ⟨c10, c11, c20, c21⟩⟩ := hm
    refine ⟨x0, v0, ?_⟩
    simp only [seqScenarioSat, seqStepSat]
    exact ⟨⟨hx0, hv0⟩,
      ⟨⟨b3, b4⟩, p1, (mono_seq_eq1_first x0 x1 x2 v0 v1 v2 d0 d1 d2).mp c10,
        (mono_seq_eq2_first x0 x1 x2 v0 v1 v2 d0 d1 d2).mp c20⟩,
      ⟨⟨b5, b6⟩, p2, (mono_seq_eq1_second x0 x1 x2 v0 v1 v2 d0 d1 d2).mp c11,
        (mono_seq_eq2_second x0 x1 x2 v0 v1 v2 d0 d1 d2).mp c21⟩⟩
  · rintro ⟨x0, v0, hs⟩
    simp only [seqScenarioSat, seqStepSat] at hs
    obtain ⟨⟨hx0, hv0⟩, ⟨⟨b3, b4⟩, p1, c10, c20⟩, ⟨⟨b5, b6⟩, p2, c11, c21⟩⟩ := hs
    have hx0' : x0 = 1 := hx0.trans initValue_scInit_x
    have hv0' : v0 = 0 := hv0.trans initValue_scInit_v
    obtain ⟨d0, hd0⟩ := hPW x0 (by rw [hx0']; norm_num) (by rw [hx0']; norm_num)
    refine ⟨x0, v0, d0, ?_⟩
    simp only [monoScenarioSat]
    exact ⟨⟨hx0', hv0'⟩,
      ⟨by rw [pyMin_scPts, hx0']; norm_num, by rw [pyMax_scPts, hx0']; norm_num,
        b3, b4, b5, b6⟩,
      ⟨hd0, p1, p2⟩,
      ⟨(mono_seq_eq1_first x0 x1 x2 v0 v1 v2 d0 d1 d2).mpr c10,
        (mono_seq_eq1_second x0 x1 x2 v0 v1 v2 d0 d1 d2).mpr c11,
        (mono_seq_eq2_first x0 x1 x2 v0 v1 v2 d0 d1 d2).mpr c20,
        (mono_seq_eq2_second x0 x1 x2 v0 v1 v2 d0 d1 d2).mpr c21⟩⟩

/-- Witness for C1: the equivalence applied over `ℚ` with the concrete total
piecewise relation `PW a b := b = 1 + a/10` and all step values `0`. -/
theorem c1_witness :
    (∀ a : ℚ, -2 ≤ a → a ≤ 2 → ∃ b : ℚ, b = 1 + a / 10) ∧
    ((∃ x0 v0 d0, monoScenarioSat (fun a b : ℚ => b = 1 + a / 10)
        x0 v0 d0 0 0 0 0 0 0)
      ↔ (∃ x0 v0, seqScenarioSat (fun a b : ℚ => b = 1 + a / 10)
        x0 v0 0 0 0 0 0 0)) :=
  ⟨fun a _ _ => ⟨1 + a / 10, rfl⟩,
   c1_mono_seq_equivalence (fun a b : ℚ => b = 1 + a / 10)
     (fun a _ _ => ⟨1 + a / 10, rfl⟩) 0 0 0 0 0 0⟩

end PyAdapter
